import Mathlib

/-!
Verification of the price-feed / indicator / rule-alert pipeline.

The definitions below are shallow embeddings of the JavaScript source:
  - `IndicatorsService` (RSI calculation, indicator history buffers),
  - `TwelveDataStream` (series buffer, reconnect backoff, tick fan-out),
  - the rule engine (`evaluateCondition`, `evaluateRule`),
  - `RuleAlertService` (`buildUnifiedData`, alert dedup loop in `handleTick`).
JavaScript numbers are modelled by `ℚ` (the arithmetic performed here is
exact at the small inputs evaluated, and the algebraic structure of the
computations is preserved); `Math.round` is floor of x + 1/2.
-/

namespace Trading

/-- `Math.round`: rounds half toward positive infinity. -/
def jsRound (q : ℚ) : ℤ := ⌊q + 1/2⌋

/-- `Math.round(x * 100) / 100`: round to two decimal places. -/
def round2 (q : ℚ) : ℚ := (jsRound (q * 100) : ℚ) / 100

/-! ### RSI (IndicatorsService.calculateRSI and the rsi part of
calculateHistoricalIndicators) -/

/-- `changes[i] = prices[i+1] - prices[i]`. -/
def priceChanges (ps : List ℚ) : List ℚ :=
  List.zipWith (fun a b => b - a) ps ps.tail

/-- Seed averages: simple mean of gains resp. absolute losses over the first
`period` changes (a change `> 0` counts as gain, otherwise its absolute value
counts as loss). -/
def seedAvgs (period : ℕ) (chs : List ℚ) : ℚ × ℚ :=
  let t := (chs.take period).foldl
    (fun (gl : ℚ × ℚ) c => if c > 0 then (gl.1 + c, gl.2) else (gl.1, gl.2 + |c|)) (0, 0)
  (t.1 / period, t.2 / period)

/-- One step of Wilder smoothing, exactly as in both the incremental and the
batch RSI loops of the source. -/
def wilderStep (period : ℕ) (gl : ℚ × ℚ) (c : ℚ) : ℚ × ℚ :=
  if c > 0 then
    ((gl.1 * ((period : ℚ) - 1) + c) / period, (gl.2 * ((period : ℚ) - 1)) / period)
  else
    ((gl.1 * ((period : ℚ) - 1)) / period, (gl.2 * ((period : ℚ) - 1) + |c|) / period)

/-- `IndicatorsService.calculateRSI(prices, period)`: the incremental path.
Returns `none` when fewer than `period + 1` prices are available; returns
exactly `100` when the smoothed average loss is zero; otherwise rounds the
Wilder RSI to two decimals. -/
def calculateRSI (prices : List ℚ) (period : ℕ) : Option ℚ :=
  if prices.length < period + 1 then none
  else
    let chs := priceChanges prices
    let gl := (chs.drop period).foldl (wilderStep period) (seedAvgs period chs)
    if gl.2 = 0 then some 100
    else some (round2 (100 - 100 / (1 + gl.1 / gl.2)))

/-- The loop of the batch RSI series: starting from the seed averages, each
further change updates the Wilder averages and emits a point at price index
`i + 1`.  Mirrors `calculateHistoricalIndicators`, which sets
`rs := 100` (not `rsi := 100`) when the average loss is zero. -/
def histRSIGo (period : ℕ) (prices : List (ℤ × ℚ)) :
    ℚ × ℚ → ℕ → List ℚ → List (ℤ × ℚ)
  | _, _, [] => []
  | gl, i, c :: rest =>
    let gl' := wilderStep period gl c
    let rs := if gl'.2 = 0 then 100 else gl'.1 / gl'.2
    let rsi := 100 - 100 / (1 + rs)
    let entry :=
      match prices.get? (i + 1) with
      | some pt => [(pt.1, round2 rsi)]
      | none => []
    entry ++ histRSIGo period prices gl' (i + 1) rest

/-- The `rsi` series of `IndicatorsService.calculateHistoricalIndicators`:
the batch path.  `prices` are (timestamp, price) pairs. -/
def historicalRSI (prices : List (ℤ × ℚ)) (period : ℕ) : List (ℤ × ℚ) :=
  let priceValues := prices.map Prod.snd
  if priceValues.length < period + 1 then []
  else
    let chs := priceChanges priceValues
    histRSIGo period prices (seedAvgs period chs) period (chs.drop period)

/-- 16 constant prices with timestamps 0..15 (period-14 RSI: all changes are
zero, so the Wilder average loss stays zero). -/
def constPrices16 : List (ℤ × ℚ) :=
  [(0, 10), (1, 10), (2, 10), (3, 10), (4, 10), (5, 10), (6, 10), (7, 10),
   (8, 10), (9, 10), (10, 10), (11, 10), (12, 10), (13, 10), (14, 10), (15, 10)]

/-- 16 strictly rising prices with timestamps 0..15 (every change is a gain,
so the Wilder average loss stays zero). -/
def risingPrices16 : List (ℤ × ℚ) :=
  [(0, 1), (1, 2), (2, 3), (3, 4), (4, 5), (5, 6), (6, 7), (7, 8),
   (8, 9), (9, 10), (10, 11), (11, 12), (12, 13), (13, 14), (14, 15), (15, 16)]

/-! ### Bounded push buffers

`TwelveDataStream.addToSeries` and `IndicatorsService.addIndicatorValue`
share the same push-then-shift logic: append the new value, and when the
length exceeds the bound remove the single oldest entry. -/

/-- Append `v`; if the bound `M` is now exceeded, drop the oldest entry
(`Array.prototype.shift`). -/
def pushCapped (M : ℕ) (buf : List α) (v : α) : List α :=
  let b := buf ++ [v]
  if M < b.length then b.tail else b

/-- `IndicatorsService.maxHistoryPoints` (constructor). -/
def maxHistoryPoints : ℕ := 2000

/-- `this.indicatorBuffers`: a JavaScript object mapping a parameter key to
an array, a missing key reading as the empty array. -/
def IndicatorBuffers (α : Type) : Type := String → List α

/-- The freshly constructed `IndicatorsService` has no buffers. -/
def emptyBuffers (α : Type) : IndicatorBuffers α := fun _ => []

/-- `IndicatorsService.addIndicatorValue`: push onto the buffer for `key`
(creating it if absent) and evict the oldest entry beyond
`maxHistoryPoints`. -/
def addIndicatorValue (bufs : IndicatorBuffers α) (key : String) (v : α) :
    IndicatorBuffers α :=
  fun j => if j = key then pushCapped maxHistoryPoints (bufs key) v else bufs j

/-- `IndicatorsService.getIndicatorHistory`: a copy of the buffer for `key`
(empty when absent). -/
def getIndicatorHistory (bufs : IndicatorBuffers α) (key : String) : List α :=
  bufs key

/-- A sequence of `addIndicatorValue` calls applied to the constructor
state. -/
def runIndicatorAdds (ops : List (String × α)) : IndicatorBuffers α :=
  ops.foldl (fun b op => addIndicatorValue b op.1 op.2) (emptyBuffers α)

/-! ### TwelveDataStream: series buffer, fan-out, reconnect backoff
(src/unnamed/part_008) -/

/-- A `{ time, price }` entry of `this.series`; `time` is the tick
timestamp. -/
structure PricePoint where
  time : ℤ
  price : ℚ
deriving DecidableEq

/-- `TwelveDataStream.addToSeries`: push the new point, then evict the
single oldest entry when `maxPoints` is exceeded.  The source performs no
timestamp comparison whatsoever. -/
def addToSeries (maxPoints : ℕ) (series : List PricePoint) (time : ℤ) (price : ℚ) :
    List PricePoint :=
  pushCapped maxPoints series ⟨time, price⟩

/-- A registered tick callback: `id` identifies it, `throwsOn q` says whether
invoking it on the quote with price `q` throws. -/
structure Callback where
  id : ℕ
  throwsOn : ℚ → Bool

/-- The `forEach` body of `notifyTickCallbacks`: each callback is invoked in
order inside `try`/`catch`; the log records `(id, threw)`.  A thrown error
is caught and logged, nothing else happens. -/
def notifyGo (q : ℚ) : List Callback → List (ℕ × Bool)
  | [] => []
  | cb :: rest => (cb.id, cb.throwsOn q) :: notifyGo q rest

/-- `TwelveDataStream.notifyTickCallbacks(quote)`: returns the subscriber
list after the delivery (the source never mutates `this.tickCallbacks`
there) together with the invocation log. -/
def notifyTickCallbacks (cbs : List Callback) (q : ℚ) :
    List Callback × List (ℕ × Bool) :=
  (cbs, notifyGo q cbs)

/-- Deliver a sequence of ticks, the subscriber list surviving from one
delivery to the next; collects the per-tick invocation logs. -/
def fanoutRun (cbs : List Callback) : List ℚ → List Callback × List (List (ℕ × Bool))
  | [] => (cbs, [])
  | q :: qs =>
    let r := notifyTickCallbacks cbs q
    let rest := fanoutRun r.1 qs
    (rest.1, r.2 :: rest.2)

/-- `this.maxReconnectAttempts` (constructor). -/
def maxReconnectAttempts : ℕ := 10

/-- `this.reconnectDelay` (constructor): 3000 ms; the source never changes
it. -/
def reconnectDelayBase : ℚ := 3000

/-- `TwelveDataStream.scheduleReconnect`: below the attempt cap it computes
`reconnectDelay * 1.5 ^ reconnectAttempts`, increments the counter and
schedules; at the cap it gives up.  Returns the scheduled delay (if any) and
the new counter. -/
def scheduleReconnect (attempts : ℕ) : Option ℚ × ℕ :=
  if maxReconnectAttempts ≤ attempts then (none, attempts)
  else (some (reconnectDelayBase * (3/2 : ℚ) ^ attempts), attempts + 1)

/-- The WebSocket `open` handler: a successful connect resets
`this.reconnectAttempts` to 0. -/
def connectOpen (_attempts : ℕ) : ℕ := 0

/-- The delays scheduled by a run of `n` consecutive failed connection
attempts starting from counter value `attempts`. -/
def reconnectRun (attempts : ℕ) : ℕ → List ℚ
  | 0 => []
  | n + 1 =>
    match scheduleReconnect attempts with
    | (none, a) => reconnectRun a n
    | (some d, a) => d :: reconnectRun a n

/-! ### RuleAlertService: alert dedup loop of handleTick
(src/unnamed/part_011) -/

/-- The dedup state of `RuleAlertService`: `sentAlerts` is the key set of
the `Map` (insertion order, values unused); `attempts` records every
outbound notification attempt `(alertKey, sendSucceeded)` in order. -/
structure AlertState where
  sentAlerts : List String
  attempts : List (String × Bool)
deriving DecidableEq

/-- The dedup key: `` `${signal.rule.id}:${signal.timestamp}` ``. -/
def alertKey (ruleId : String) (ts : ℤ) : String :=
  ruleId ++ ":" ++ toString ts

/-- The body of the `for (const signal of triggered)` loop in `handleTick`:
skip if the key was already sent; otherwise record the key (before the
send) and attempt the outbound notification, whose failure is only logged —
`sendOk` says whether the notification sink accepts a given key. -/
def processSignal (sendOk : String → Bool) (st : AlertState) (sig : String × ℤ) :
    AlertState :=
  let key := alertKey sig.1 sig.2
  if key ∈ st.sentAlerts then st
  else
    { sentAlerts := st.sentAlerts ++ [key],
      attempts := st.attempts ++ [(key, sendOk key)] }

/-- One `handleTick` invocation, given the list of triggered signals
`(ruleId, timestamp)` it computed for this tick. -/
def handleTick (sendOk : String → Bool) (st : AlertState)
    (signals : List (String × ℤ)) : AlertState :=
  signals.foldl (processSignal sendOk) st

/-- A process lifetime: a sequence of `handleTick` invocations starting from
the constructor state (empty `sentAlerts`). -/
def runTicks (sendOk : String → Bool) (batches : List (List (String × ℤ))) :
    AlertState :=
  batches.foldl (handleTick sendOk) ⟨[], []⟩

/-- The dedup invariant: no alert key was ever attempted twice, and every
attempted key is recorded in `sentAlerts`. -/
def AlertInv (st : AlertState) : Prop :=
  (st.attempts.map Prod.fst).Nodup ∧ ∀ a ∈ st.attempts, a.1 ∈ st.sentAlerts

/-- Two dedup states that agree on everything except the recorded send
outcomes. -/
def AlertAgree (st st' : AlertState) : Prop :=
  st.sentAlerts = st'.sentAlerts ∧
  st.attempts.map Prod.fst = st'.attempts.map Prod.fst

/-! ### Rule engine (src/frontend/src/utils/rulesEngine.js and the identical
server copy in src/unnamed/part_011)

JavaScript values read from a data point are a number, `null` (absent point
or unknown indicator key) or `undefined` (point present, field absent). -/

/-- A JavaScript value read from a unified data point. -/
inductive JsVal where
  | num (q : ℚ)
  | null
  | undefined
deriving DecidableEq

/-- `v === null || v === undefined` (the guard on the current value). -/
def JsVal.isMissing : JsVal → Bool
  | .num _ => false
  | .null => true
  | .undefined => true

/-- JavaScript `ToNumber` as it applies here: `null` coerces to 0,
`undefined` to NaN (modelled as `none`). -/
def toNumber : JsVal → Option ℚ
  | .num q => some q
  | .null => some 0
  | .undefined => none

/-- A JavaScript relational comparison: false whenever either side is NaN. -/
def jsCmp (f : ℚ → ℚ → Bool) (a b : JsVal) : Bool :=
  match toNumber a, toNumber b with
  | some x, some y => f x y
  | _, _ => false

/-- `a > b` on JavaScript values. -/
def jsGt (a b : JsVal) : Bool := jsCmp (fun x y => decide (y < x)) a b

/-- `a < b` on JavaScript values. -/
def jsLt (a b : JsVal) : Bool := jsCmp (fun x y => decide (x < y)) a b

/-- `a >= b` on JavaScript values. -/
def jsGe (a b : JsVal) : Bool := jsCmp (fun x y => decide (y ≤ x)) a b

/-- `a <= b` on JavaScript values. -/
def jsLe (a b : JsVal) : Bool := jsCmp (fun x y => decide (x ≤ y)) a b

/-- `a - b` on JavaScript values (`none` = NaN). -/
def jsSub (a b : JsVal) : Option ℚ :=
  match toNumber a, toNumber b with
  | some x, some y => some (x - y)
  | _, _ => none

/-- A unified data point, as produced by
`RuleAlertService.buildUnifiedData`: a timestamp plus whatever fields have
been filled in so far. -/
structure UPoint where
  ts : ℤ
  price : Option ℚ := none
  rsi : Option ℚ := none
  macd : Option ℚ := none
  signal : Option ℚ := none
  histogram : Option ℚ := none
  k : Option ℚ := none
  d : Option ℚ := none
  upper : Option ℚ := none
  middle : Option ℚ := none
  lower : Option ℚ := none
deriving DecidableEq

/-- Reading a possibly-absent object field. -/
def fieldVal : Option ℚ → JsVal
  | some q => .num q
  | none => .undefined

/-- `getIndicatorValue(dataPoint, indicatorKey)`: `null` for a falsy point
or an unknown key, otherwise the field selected by the key. -/
def getIndicatorValue (pt : Option UPoint) (key : String) : JsVal :=
  match pt with
  | none => .null
  | some p =>
    if key = "PRICE" then fieldVal p.price
    else if key = "RSI" then fieldVal p.rsi
    else if key = "MACD" then fieldVal p.macd
    else if key = "MACD_SIGNAL" then fieldVal p.signal
    else if key = "MACD_HISTOGRAM" then fieldVal p.histogram
    else if key = "STOCH_K" then fieldVal p.k
    else if key = "STOCH_D" then fieldVal p.d
    else if key = "BB_UPPER" then fieldVal p.upper
    else if key = "BB_MIDDLE" then fieldVal p.middle
    else if key = "BB_LOWER" then fieldVal p.lower
    else .null

/-- A rule condition (field names already normalised, numeric operands
present as numbers).  `compareToIndicator = ""` models a falsy comparison
indicator; `lookback = 0` models a falsy lookback (`condition.lookback || 1`
then yields 1). -/
structure Condition where
  indicatorKey : String
  operator : String
  value : ℚ
  valueFrom : ℚ
  valueTo : ℚ
  compareToIndicator : String
  lookback : ℤ
deriving DecidableEq

/-- `condition.lookback || 1`. -/
def lookbackOf (c : Condition) : ℤ := if c.lookback = 0 then 1 else c.lookback

/-- `data[i]` for an integer index (negative or past-the-end reads give
`undefined`, which `getIndicatorValue` treats as a falsy point). -/
def jsIndex (data : List UPoint) (i : ℤ) : Option UPoint :=
  if i < 0 then none else data.get? i.toNat

/-- `evaluateCondition(condition, data, currentIndex)`.  Total by
construction (the JavaScript never throws here: every read is guarded or
yields `undefined`, whose comparisons are false). -/
def evaluateCondition (c : Condition) (data : List UPoint) (currentIndex : ℤ) : Bool :=
  if currentIndex < 0 ∨ (data.length : ℤ) ≤ currentIndex then false
  else
    let currentPoint := jsIndex data currentIndex
    let currentValue := getIndicatorValue currentPoint c.indicatorKey
    if currentValue.isMissing then false
    else
      let lookback := lookbackOf c
      match c.operator with
      | "GT" => jsGt currentValue (.num c.value)
      | "LT" => jsLt currentValue (.num c.value)
      | "GTE" => jsGe currentValue (.num c.value)
      | "LTE" => jsLe currentValue (.num c.value)
      | "EQ" =>
        match jsSub currentValue (.num c.value) with
        | some dv => decide (|dv| < 1/10000)
        | none => false
      | "BETWEEN" =>
        jsGe currentValue (.num c.valueFrom) && jsLe currentValue (.num c.valueTo)
      | "CROSSES_ABOVE" =>
        if currentIndex < 1 then false
        else
          let previousValue := getIndicatorValue (jsIndex data (currentIndex - 1)) c.indicatorKey
          if previousValue = .null then false
          else jsLe previousValue (.num c.value) && jsGt currentValue (.num c.value)
      | "CROSSES_BELOW" =>
        if currentIndex < 1 then false
        else
          let previousValue := getIndicatorValue (jsIndex data (currentIndex - 1)) c.indicatorKey
          if previousValue = .null then false
          else jsGe previousValue (.num c.value) && jsLt currentValue (.num c.value)
      | "CROSSES_ABOVE_IND" =>
        if currentIndex < 1 ∨ c.compareToIndicator = "" then false
        else
          let currentCompareValue := getIndicatorValue currentPoint c.compareToIndicator
          let previousPoint := jsIndex data (currentIndex - 1)
          let previousValue := getIndicatorValue previousPoint c.indicatorKey
          let previousCompareValue := getIndicatorValue previousPoint c.compareToIndicator
          if previousValue = .null ∨ previousCompareValue = .null ∨ currentCompareValue = .null
          then false
          else jsLe previousValue previousCompareValue && jsGt currentValue currentCompareValue
      | "CROSSES_BELOW_IND" =>
        if currentIndex < 1 ∨ c.compareToIndicator = "" then false
        else
          let currentCompareValue := getIndicatorValue currentPoint c.compareToIndicator
          let previousPoint := jsIndex data (currentIndex - 1)
          let previousValue := getIndicatorValue previousPoint c.indicatorKey
          let previousCompareValue := getIndicatorValue previousPoint c.compareToIndicator
          if previousValue = .null ∨ previousCompareValue = .null ∨ currentCompareValue = .null
          then false
          else jsGe previousValue previousCompareValue && jsLt currentValue currentCompareValue
      | "INCREASING" =>
        if currentIndex < lookback then false
        else
          let previousValue := getIndicatorValue (jsIndex data (currentIndex - lookback)) c.indicatorKey
          if previousValue = .null then false
          else jsGt currentValue previousValue
      | "DECREASING" =>
        if currentIndex < lookback then false
        else
          let previousValue := getIndicatorValue (jsIndex data (currentIndex - lookback)) c.indicatorKey
          if previousValue = .null then false
          else jsLt currentValue previousValue
      | "FLAT" =>
        if currentIndex < lookback then false
        else
          let previousValue := getIndicatorValue (jsIndex data (currentIndex - lookback)) c.indicatorKey
          if previousValue = .null then false
          else
            match toNumber currentValue, jsSub currentValue previousValue with
            | some cv, some dv => decide (|dv| < |cv * (1/100)|)
            | _, _ => false
      | _ => false

/-- The operator strings the `switch` recognises. -/
def knownOperator (op : String) : Bool :=
  op == "GT" || op == "LT" || op == "GTE" || op == "LTE" || op == "EQ" ||
  op == "BETWEEN" || op == "CROSSES_ABOVE" || op == "CROSSES_BELOW" ||
  op == "CROSSES_ABOVE_IND" || op == "CROSSES_BELOW_IND" ||
  op == "INCREASING" || op == "DECREASING" || op == "FLAT"

/-- The index a condition looks back to, when its operator looks back at
all. -/
def lookbackIndex (c : Condition) (i : ℤ) : Option ℤ :=
  if c.operator = "CROSSES_ABOVE" ∨ c.operator = "CROSSES_BELOW" ∨
     c.operator = "CROSSES_ABOVE_IND" ∨ c.operator = "CROSSES_BELOW_IND" then
    some (i - 1)
  else if c.operator = "INCREASING" ∨ c.operator = "DECREASING" ∨
          c.operator = "FLAT" then
    some (i - lookbackOf c)
  else none

/-- A rule as the evaluator reads it. -/
structure Rule where
  enabled : Bool
  logic : String
  conditions : List Condition
deriving DecidableEq

/-- The `Array.prototype.every` loop of the AND branch: push each true
condition and stop at the first false one; returns the pushed list and the
overall result. -/
def andEvery (data : List UPoint) (i : ℤ) : List Condition → List Condition × Bool
  | [] => ([], true)
  | c :: rest =>
    if evaluateCondition c data i then
      let r := andEvery data i rest
      (c :: r.1, r.2)
    else ([], false)

/-- `evaluateRule(rule, data, currentIndex)`, returning
`(triggered, matchedConditions)`.  `rule.logic || 'AND'` defaults a falsy
logic to AND; with AND the matched list is cleared unless every condition
held; with OR the matched list is exactly the true subset. -/
def evaluateRule (rule : Rule) (data : List UPoint) (i : ℤ) :
    Bool × List Condition :=
  if rule.enabled = false ∨ rule.conditions = [] then (false, [])
  else
    let logic := if rule.logic = "" then "AND" else rule.logic
    if logic = "AND" then
      let r := andEvery data i rule.conditions
      (r.2, if r.2 then r.1 else [])
    else if logic = "OR" then
      let m := rule.conditions.filter (fun c => evaluateCondition c data i)
      (!m.isEmpty, m)
    else (false, [])

/-! ### RuleAlertService.buildUnifiedData (src/unnamed/part_011)

The source time-buckets by `Date.parse(pt.time)`; a point whose parse is
`NaN` is skipped by `addValue`'s `Number.isFinite` guard.  Each input point
below therefore carries its parse result as `Option ℤ` (`none` = NaN), so
the final `.filter(p => Number.isFinite(p.ts))` is the identity here: every
map key is a finite timestamp by construction. -/

/-- A `{ time, price }` entry of the price series, with `ts` its parsed
timestamp. -/
structure PriceTick where
  ts : Option ℤ
  price : ℚ
deriving DecidableEq

/-- An entry of the `rsi_14` history. -/
structure RsiPoint where
  ts : Option ℤ
  rsi : ℚ
deriving DecidableEq

/-- An entry of the `macd_12_26_9` history. -/
structure MacdPoint where
  ts : Option ℤ
  macd : ℚ
  signal : ℚ
  histogram : ℚ
deriving DecidableEq

/-- An entry of the `stochastic_14_3_3` history. -/
structure StochPoint where
  ts : Option ℤ
  k : ℚ
  d : ℚ
deriving DecidableEq

/-- An entry of the `bollinger_20_2` history. -/
structure BbPoint where
  ts : Option ℤ
  upper : ℚ
  middle : ℚ
  lower : ℚ
deriving DecidableEq

/-- The `dataMap`: a JavaScript `Map` in insertion order with unique keys. -/
abbrev UMap := List (ℤ × UPoint)

/-- `dataMap.get(t)`. -/
def mapGet (m : UMap) (t : ℤ) : Option UPoint :=
  (m.find? (fun e => e.1 = t)).map Prod.snd

/-- `dataMap.set(t, v)` for a key already present: replace in place. -/
def mapSet (m : UMap) (t : ℤ) (v : UPoint) : UMap :=
  m.map (fun e => if e.1 = t then (t, v) else e)

/-- The fresh `{ ts }` object `addValue` creates for a new bucket. -/
def emptyU (t : ℤ) : UPoint := { ts := t }

/-- `addValue(ts, updater)`: skip a non-finite timestamp; otherwise create
the bucket if absent and apply the updater to it. -/
def addValue (m : UMap) (ots : Option ℤ) (f : UPoint → UPoint) : UMap :=
  match ots with
  | none => m
  | some t =>
    match mapGet m t with
    | some p => mapSet m t (f p)
    | none => m ++ [(t, f (emptyU t))]

/-- One recorded write: a (possibly NaN) timestamp and the field updater the
source passes to `addValue` for it. -/
abbrev UWrite := (Option ℤ) × (UPoint → UPoint)

/-- Fold a list of writes through `addValue`. -/
def applyWrites (m : UMap) (ws : List UWrite) : UMap :=
  ws.foldl (fun m w => addValue m w.1 w.2) m

/-- The writes the price-series loop performs. -/
def priceWrites (series : List PriceTick) : List UWrite :=
  series.map (fun pt => (pt.ts, fun o => { o with price := some pt.price }))

/-- The writes the RSI-history loop performs. -/
def rsiWrites (hist : List RsiPoint) : List UWrite :=
  hist.map (fun pt => (pt.ts, fun o => { o with rsi := some pt.rsi }))

/-- The writes the MACD-history loop performs (three fields at once). -/
def macdWrites (hist : List MacdPoint) : List UWrite :=
  hist.map (fun pt => (pt.ts, fun o =>
    { o with macd := some pt.macd, signal := some pt.signal,
             histogram := some pt.histogram }))

/-- The writes the stochastic-history loop performs. -/
def stochWrites (hist : List StochPoint) : List UWrite :=
  hist.map (fun pt => (pt.ts, fun o => { o with k := some pt.k, d := some pt.d }))

/-- The writes the Bollinger-history loop performs. -/
def bbWrites (hist : List BbPoint) : List UWrite :=
  hist.map (fun pt => (pt.ts, fun o =>
    { o with upper := some pt.upper, middle := some pt.middle,
             lower := some pt.lower }))

/-- `RuleAlertService.buildUnifiedData()`: empty when the price series is
empty; otherwise bucket the five series in source order into the map and
return its values sorted ascending by timestamp. -/
def buildUnifiedData (series : List PriceTick) (rsiH : List RsiPoint)
    (macdH : List MacdPoint) (stochH : List StochPoint) (bbH : List BbPoint) :
    List UPoint :=
  if series = [] then []
  else
    let m : UMap := []
    let m := series.foldl (fun m pt =>
      addValue m pt.ts (fun o => { o with price := some pt.price })) m
    let m := rsiH.foldl (fun m pt =>
      addValue m pt.ts (fun o => { o with rsi := some pt.rsi })) m
    let m := macdH.foldl (fun m pt =>
      addValue m pt.ts (fun o =>
        { o with macd := some pt.macd, signal := some pt.signal,
                 histogram := some pt.histogram })) m
    let m := stochH.foldl (fun m pt =>
      addValue m pt.ts (fun o => { o with k := some pt.k, d := some pt.d })) m
    let m := bbH.foldl (fun m pt =>
      addValue m pt.ts (fun o =>
        { o with upper := some pt.upper, middle := some pt.middle,
                 lower := some pt.lower })) m
    (m.map Prod.snd).insertionSort (fun a b => a.ts ≤ b.ts)

/-- The price entries written into bucket `t`, in write order. -/
def priceWritesAt (series : List PriceTick) (t : ℤ) : List PriceTick :=
  series.filter (fun pt => pt.ts = some t)

/-- The RSI entries written into bucket `t`, in write order. -/
def rsiWritesAt (hist : List RsiPoint) (t : ℤ) : List RsiPoint :=
  hist.filter (fun pt => pt.ts = some t)

/-- The MACD entries written into bucket `t`, in write order. -/
def macdWritesAt (hist : List MacdPoint) (t : ℤ) : List MacdPoint :=
  hist.filter (fun pt => pt.ts = some t)

/-- The stochastic entries written into bucket `t`, in write order. -/
def stochWritesAt (hist : List StochPoint) (t : ℤ) : List StochPoint :=
  hist.filter (fun pt => pt.ts = some t)

/-- The Bollinger entries written into bucket `t`, in write order. -/
def bbWritesAt (hist : List BbPoint) (t : ℤ) : List BbPoint :=
  hist.filter (fun pt => pt.ts = some t)

/-- Sequential application of updaters (the effect of repeated `addValue`
calls on one bucket object). -/
def applyAll (fs : List (UPoint → UPoint)) (o : UPoint) : UPoint :=
  fs.foldl (fun a f => f a) o

/-- The updaters among `ws` that target bucket `t`, in order. -/
def updatersAt (ws : List UWrite) (t : ℤ) : List (UPoint → UPoint) :=
  ws.filterMap (fun w => if w.1 = some t then some w.2 else none)

/-- The last price written into bucket `t` (the claim's "last value written
for that field at that timestamp"). -/
def lastWrittenPrice (series : List PriceTick) (t : ℤ) : Option ℚ :=
  ((priceWritesAt series t).getLast?).map (fun pt => pt.price)

/-- The last RSI written into bucket `t`. -/
def lastWrittenRsi (hist : List RsiPoint) (t : ℤ) : Option ℚ :=
  ((rsiWritesAt hist t).getLast?).map (fun pt => pt.rsi)

/-- The last MACD value written into bucket `t`. -/
def lastWrittenMacd (hist : List MacdPoint) (t : ℤ) : Option ℚ :=
  ((macdWritesAt hist t).getLast?).map (fun pt => pt.macd)

/-- The last MACD signal written into bucket `t`. -/
def lastWrittenSignal (hist : List MacdPoint) (t : ℤ) : Option ℚ :=
  ((macdWritesAt hist t).getLast?).map (fun pt => pt.signal)

/-- The last MACD histogram written into bucket `t`. -/
def lastWrittenHistogram (hist : List MacdPoint) (t : ℤ) : Option ℚ :=
  ((macdWritesAt hist t).getLast?).map (fun pt => pt.histogram)

/-- The last stochastic %K written into bucket `t`. -/
def lastWrittenK (hist : List StochPoint) (t : ℤ) : Option ℚ :=
  ((stochWritesAt hist t).getLast?).map (fun pt => pt.k)

/-- The last stochastic %D written into bucket `t`. -/
def lastWrittenD (hist : List StochPoint) (t : ℤ) : Option ℚ :=
  ((stochWritesAt hist t).getLast?).map (fun pt => pt.d)

/-- The last Bollinger upper band written into bucket `t`. -/
def lastWrittenUpper (hist : List BbPoint) (t : ℤ) : Option ℚ :=
  ((bbWritesAt hist t).getLast?).map (fun pt => pt.upper)

/-- The last Bollinger middle band written into bucket `t`. -/
def lastWrittenMiddle (hist : List BbPoint) (t : ℤ) : Option ℚ :=
  ((bbWritesAt hist t).getLast?).map (fun pt => pt.middle)

/-- The last Bollinger lower band written into bucket `t`. -/
def lastWrittenLower (hist : List BbPoint) (t : ℤ) : Option ℚ :=
  ((bbWritesAt hist t).getLast?).map (fun pt => pt.lower)

instance : IsTotal UPoint (fun a b => a.ts ≤ b.ts) :=
  ⟨fun a b => le_total a.ts b.ts⟩

instance : IsTrans UPoint (fun a b => a.ts ≤ b.ts) :=
  ⟨fun _ _ _ hab hbc => le_trans hab hbc⟩

/-! ## Theorems -/

/-! ### Bounded buffers: helper lemmas -/

theorem foldl_pushCapped_eq {α : Type} (M : ℕ) (vs : List α) :
    ∀ b : List α, b.length ≤ M →
      vs.foldl (pushCapped M) b = (b ++ vs).drop ((b ++ vs).length - M) := by
  induction vs with
  | nil =>
    intro b h
    simp [Nat.sub_eq_zero_of_le h]
  | cons v rest ih =>
    intro b h
    rw [List.foldl_cons]
    have hsplit : b ++ v :: rest = (b ++ [v]) ++ rest := by simp
    rcases Nat.lt_or_ge M (b.length + 1) with hM | hM
    · have hbM : b.length = M := le_antisymm h (Nat.lt_succ_iff.mp hM)
      have hb' : pushCapped M b v = (b ++ [v]).drop 1 := by
        simp [pushCapped, List.drop_one, hM]
      have hlen : (pushCapped M b v).length ≤ M := by
        rw [hb']
        simp [hbM]
      rw [ih _ hlen, hb', hsplit]
      rw [← List.drop_append_of_le_length (by simp : 1 ≤ (b ++ [v]).length)]
      rw [List.drop_drop]
      congr 1
      simp only [List.length_append, List.length_drop, List.length_cons,
        List.length_nil]
      omega
    · have hb' : pushCapped M b v = b ++ [v] := by
        simp only [pushCapped]
        rw [if_neg]
        simp only [List.length_append, List.length_cons, List.length_nil]
        omega
      have hlen : (pushCapped M b v).length ≤ M := by
        rw [hb']
        simp only [List.length_append, List.length_cons, List.length_nil]
        omega
      rw [ih _ hlen, hb', hsplit]

theorem runAdds_apply {α : Type} (ops : List (String × α)) (k : String) :
    ∀ bufs : IndicatorBuffers α,
      (ops.foldl (fun b op => addIndicatorValue b op.1 op.2) bufs) k =
        ((ops.filter (fun op => op.1 = k)).map Prod.snd).foldl
          (pushCapped maxHistoryPoints) (bufs k) := by
  induction ops with
  | nil => intro bufs; simp
  | cons op rest ih =>
    intro bufs
    rw [List.foldl_cons]
    by_cases hk : op.1 = k
    · rw [ih]
      simp [List.filter_cons, hk, addIndicatorValue]
    · rw [ih]
      have : (addIndicatorValue bufs op.1 op.2) k = bufs k := by
        simp [addIndicatorValue]
        intro hkk
        exact absurd hkk.symm hk
      rw [this]
      simp [List.filter_cons, hk]

/-! ### Reconnect backoff: helper lemmas -/

theorem reconnectRun_eq (n : ℕ) : ∀ a : ℕ,
    reconnectRun a n = (List.range (min n (maxReconnectAttempts - a))).map
      (fun i => reconnectDelayBase * (3/2 : ℚ) ^ (a + i)) := by
  induction n with
  | zero => intro a; simp [reconnectRun]
  | succ n ih =>
    intro a
    by_cases ha : maxReconnectAttempts ≤ a
    · have h0 : maxReconnectAttempts - a = 0 := Nat.sub_eq_zero_of_le ha
      have hstep : reconnectRun a (n + 1) = reconnectRun a n := by
        simp [reconnectRun, scheduleReconnect, ha]
      rw [hstep, ih a, h0]
      simp
    · push_neg at ha
      have hstep : reconnectRun a (n + 1)
          = reconnectDelayBase * (3/2 : ℚ) ^ a :: reconnectRun (a + 1) n := by
        simp [reconnectRun, scheduleReconnect, Nat.not_le_of_lt ha]
      have hmin : min (n + 1) (maxReconnectAttempts - a)
          = min n (maxReconnectAttempts - (a + 1)) + 1 := by
        omega
      rw [hstep, ih (a + 1), hmin, List.range_succ_eq_map]
      simp only [List.map_cons, List.map_map]
      rw [Nat.add_zero]
      congr 1
      apply List.map_congr_left
      intro i _
      simp only [Function.comp_apply]
      have hexp : a + 1 + i = a + Nat.succ i := by omega
      rw [hexp]

/-! ### Alert dedup: helper lemmas -/

theorem processSignal_inv (f : String → Bool) (st : AlertState) (sig : String × ℤ)
    (h : AlertInv st) :
    AlertInv (processSignal f st sig) ∧
    st.sentAlerts ⊆ (processSignal f st sig).sentAlerts := by
  unfold processSignal
  by_cases hk : alertKey sig.1 sig.2 ∈ st.sentAlerts
  · rw [if_pos hk]
    exact ⟨h, List.Subset.refl _⟩
  · rw [if_neg hk]
    refine ⟨⟨?_, ?_⟩, ?_⟩
    · rw [List.map_append]
      rw [List.nodup_append]
      refine ⟨h.1, List.nodup_singleton _, ?_⟩
      intro x hx hx'
      simp only [List.map_cons, List.map_nil, List.mem_singleton] at hx'
      subst hx'
      rcases List.mem_map.mp hx with ⟨a, ha, hfst⟩
      exact hk (hfst ▸ h.2 a ha)
    · intro a ha
      rcases List.mem_append.mp ha with ha' | ha'
      · exact List.mem_append_left _ (h.2 a ha')
      · simp only [List.mem_singleton] at ha'
        subst ha'
        exact List.mem_append_right _ (by simp)
    · exact List.subset_append_left _ _

theorem foldl_processSignal_inv (f : String → Bool) (sigs : List (String × ℤ)) :
    ∀ st : AlertState, AlertInv st →
      AlertInv (sigs.foldl (processSignal f) st) ∧
      st.sentAlerts ⊆ (sigs.foldl (processSignal f) st).sentAlerts := by
  induction sigs with
  | nil => intro st h; exact ⟨h, List.Subset.refl _⟩
  | cons s rest ih =>
    intro st h
    rw [List.foldl_cons]
    have h1 := processSignal_inv f st s h
    have h2 := ih (processSignal f st s) h1.1
    exact ⟨h2.1, List.Subset.trans h1.2 h2.2⟩

theorem foldl_handleTick_inv (f : String → Bool)
    (batches : List (List (String × ℤ))) :
    ∀ st : AlertState, AlertInv st →
      AlertInv (batches.foldl (handleTick f) st) ∧
      st.sentAlerts ⊆ (batches.foldl (handleTick f) st).sentAlerts := by
  induction batches with
  | nil => intro st h; exact ⟨h, List.Subset.refl _⟩
  | cons sigs rest ih =>
    intro st h
    rw [List.foldl_cons]
    have h1 := foldl_processSignal_inv f sigs st h
    have h2 := ih (sigs.foldl (processSignal f) st) h1.1
    exact ⟨h2.1, List.Subset.trans h1.2 h2.2⟩

theorem processSignal_agree (f g : String → Bool) (sig : String × ℤ)
    (st st' : AlertState) (h : AlertAgree st st') :
    AlertAgree (processSignal f st sig) (processSignal g st' sig) := by
  unfold processSignal
  rw [h.1]
  by_cases hk : alertKey sig.1 sig.2 ∈ st'.sentAlerts
  · rw [if_pos hk, if_pos hk]
    exact h
  · rw [if_neg hk, if_neg hk]
    refine ⟨rfl, ?_⟩
    simp only [List.map_append, List.map_cons, List.map_nil]
    rw [h.2]

theorem foldl_processSignal_agree (f g : String → Bool)
    (sigs : List (String × ℤ)) :
    ∀ st st' : AlertState, AlertAgree st st' →
      AlertAgree (sigs.foldl (processSignal f) st)
        (sigs.foldl (processSignal g) st') := by
  induction sigs with
  | nil => intro st st' h; exact h
  | cons s rest ih =>
    intro st st' h
    rw [List.foldl_cons, List.foldl_cons]
    exact ih _ _ (processSignal_agree f g s st st' h)

theorem foldl_handleTick_agree (f g : String → Bool)
    (batches : List (List (String × ℤ))) :
    ∀ st st' : AlertState, AlertAgree st st' →
      AlertAgree (batches.foldl (handleTick f) st)
        (batches.foldl (handleTick g) st') := by
  induction batches with
  | nil => intro st st' h; exact h
  | cons sigs rest ih =>
    intro st st' h
    rw [List.foldl_cons, List.foldl_cons]
    exact ih _ _ (foldl_processSignal_agree f g sigs st st' h)

theorem nodup_map_filter_len {γ δ : Type} [DecidableEq δ] (g : γ → δ)
    (l : List γ) (hd : (l.map g).Nodup) (x : δ) :
    (l.filter (fun a => g a = x)).length ≤ 1 := by
  induction l with
  | nil => simp
  | cons a rest ih =>
    rw [List.map_cons, List.nodup_cons] at hd
    by_cases hx : g a = x
    · have hnil : rest.filter (fun b => decide (g b = x)) = [] := by
        rw [List.filter_eq_nil_iff]
        intro b hb
        simp only [decide_eq_true_eq]
        intro hbx
        apply hd.1
        rw [hx, ← hbx]
        exact List.mem_map_of_mem g hb
      have hstep : (a :: rest).filter (fun b => decide (g b = x)) = [a] := by
        simp [List.filter_cons, hx, hnil]
      rw [hstep]
      simp
    · have hstep : (a :: rest).filter (fun b => decide (g b = x))
          = rest.filter (fun b => decide (g b = x)) := by
        simp [List.filter_cons, hx]
      rw [hstep]
      exact ih hd.2

/-! ### Claim theorems -/

/-- **C1** (code_bug evidence).  The incremental RSI and the batch RSI series
are claimed numerically identical at every overlapping timestamp.  On 16
constant prices (period 14) the single overlapping timestamp is 15: the
incremental path (`calculateRSI`, which returns 100 when the smoothed
average loss is zero) reports 100 there, while the batch path
(`historicalRSI`, which sets `rs := 100` instead of `rsi := 100` in that
case) reports 99.01. -/
theorem rsi_incremental_batch_divergence :
    calculateRSI (constPrices16.map Prod.snd) 14 = some 100 ∧
    historicalRSI constPrices16 14 = [(15, 9901/100)] ∧
    ((9901 : ℚ)/100) ≠ 100 := by
  refine ⟨?_, ?_, by norm_num⟩ <;>
    norm_num [calculateRSI, historicalRSI, histRSIGo, priceChanges, seedAvgs,
      wilderStep, round2, jsRound, constPrices16]

/-- **C2** (code_bug evidence).  On 16 strictly rising prices (period 14)
the Wilder-smoothed average loss at the final point is zero, so the claim
says both paths report exactly 100 there.  The incremental path does; the
batch path reports 99.01 for the final timestamp 15. -/
theorem rsi_zero_avgLoss_batch_not_100 :
    (((priceChanges (risingPrices16.map Prod.snd)).drop 14).foldl (wilderStep 14)
        (seedAvgs 14 (priceChanges (risingPrices16.map Prod.snd)))).2 = 0 ∧
    calculateRSI (risingPrices16.map Prod.snd) 14 = some 100 ∧
    historicalRSI risingPrices16 14 = [(15, 9901/100)] ∧
    ((9901 : ℚ)/100) ≠ 100 := by
  refine ⟨?_, ?_, ?_, by norm_num⟩ <;>
    norm_num [calculateRSI, historicalRSI, histRSIGo, priceChanges, seedAvgs,
      wilderStep, round2, jsRound, risingPrices16]

/-- **C4** (counterexample).  Delivering a tick to a subscriber list whose
first callback throws: the invocation log records the throw, yet the
subscriber list after delivery still contains the throwing callback — the
source catches and logs, it never unsubscribes.  This refutes "the throwing
callback is removed from the subscriber list after its first failure". -/
theorem notify_keeps_throwing_callback :
    (notifyTickCallbacks [⟨0, fun _ => true⟩, ⟨1, fun _ => false⟩] 7).2
        = [(0, true), (1, false)] ∧
    (notifyTickCallbacks [⟨0, fun _ => true⟩, ⟨1, fun _ => false⟩] 7).1
        = [⟨0, fun _ => true⟩, ⟨1, fun _ => false⟩] :=
  ⟨rfl, rfl⟩

/-- **C4** (amended).  A throwing callback is caught (its throw is only
logged) and every subscriber — the throwing one included — still receives
that tick and every subsequent tick in subscription order; the subscriber
list is never changed by delivery, so the throwing callback is not
removed. -/
theorem fanout_delivers_all_list_unchanged (cbs : List Callback) (qs : List ℚ) :
    (fanoutRun cbs qs).1 = cbs ∧
    (fanoutRun cbs qs).2 =
      qs.map (fun q => cbs.map (fun cb => (cb.id, cb.throwsOn q))) := by
  have hgo : ∀ (q : ℚ) (l : List Callback),
      notifyGo q l = l.map (fun cb => (cb.id, cb.throwsOn q)) := by
    intro q l
    induction l with
    | nil => rfl
    | cons cb rest ih => simp [notifyGo, ih]
  induction qs with
  | nil => exact ⟨rfl, rfl⟩
  | cons q rest ih =>
    refine ⟨?_, ?_⟩ <;> simp [fanoutRun, notifyTickCallbacks, hgo, ih.1, ih.2]

/-- **C6** (counterexample).  The buffer holds one point with timestamp 5; a
new point with the same timestamp 5 (not after the last point) is appended
anyway — the claim says such an append is rejected with the buffer left
unchanged. -/
theorem addToSeries_accepts_stale_point :
    (5 : ℤ) ≤ 5 ∧
    addToSeries 2000 [⟨5, 1⟩] 5 2 = [⟨5, 1⟩, ⟨5, 2⟩] ∧
    addToSeries 2000 [⟨5, 1⟩] 5 2 ≠ [⟨5, 1⟩] := by
  refine ⟨le_refl 5, ?_, ?_⟩ <;> simp [addToSeries, pushCapped]

/-- **C6** (amended).  `addToSeries` performs no timestamp check at all:
every point — out-of-order and duplicate timestamps included — is appended
and becomes the last element of the series; only the capacity bound is
enforced (when the buffer was below capacity the result is exactly the old
series plus the new point). -/
theorem addToSeries_always_appends (maxPoints : ℕ) (series : List PricePoint)
    (time : ℤ) (price : ℚ) (hM : 0 < maxPoints) :
    (addToSeries maxPoints series time price).getLast? = some ⟨time, price⟩ ∧
    (series.length < maxPoints →
      addToSeries maxPoints series time price = series ++ [⟨time, price⟩]) := by
  constructor
  · unfold addToSeries pushCapped
    by_cases hc : maxPoints < (series ++ [(⟨time, price⟩ : PricePoint)]).length
    · rw [if_pos hc]
      match series with
      | [] =>
        simp at hc
        omega
      | s :: ss =>
        simp only [List.cons_append, List.tail_cons]
        exact List.getLast?_concat _
    · rw [if_neg hc]
      exact List.getLast?_concat _
  · intro hlen
    unfold addToSeries pushCapped
    rw [if_neg]
    simp
    omega

/-- **C6** (amended, witness). -/
theorem addToSeries_always_appends_witness :
    (addToSeries 2000 [⟨5, 1⟩] 5 2).getLast? = some ⟨5, 2⟩ :=
  (addToSeries_always_appends 2000 [⟨5, 1⟩] 5 2 (by decide)).1

/-- **C5**.  Across every run of consecutive failed connection attempts the
scheduled delays are `3000 * 1.5 ^ attemptIndex` — geometric growth from the
base value — hence non-decreasing, and (because `scheduleReconnect` refuses
to schedule once `maxReconnectAttempts` is reached) never exceed the fixed
maximum `3000 * 1.5 ^ 9`; after one successful connect the attempt counter
is reset, so the next failure is scheduled at the base delay again. -/
theorem reconnect_backoff_policy (a n : ℕ) :
    List.Chain' (· ≤ ·) (reconnectRun a n) ∧
    (∀ q ∈ reconnectRun a n, ∃ j, j < maxReconnectAttempts ∧
        q = reconnectDelayBase * (3/2 : ℚ) ^ j) ∧
    (∀ q ∈ reconnectRun a n,
        q ≤ reconnectDelayBase * (3/2 : ℚ) ^ (maxReconnectAttempts - 1)) ∧
    (0 < n → (reconnectRun (connectOpen a) n).head? = some reconnectDelayBase) := by
  have hbase : (0 : ℚ) ≤ reconnectDelayBase := by norm_num [reconnectDelayBase]
  have hone : (1 : ℚ) ≤ 3/2 := by norm_num
  refine ⟨?_, ?_, ?_, ?_⟩
  · rw [reconnectRun_eq]
    rw [List.chain'_map]
    cases hm : min n (maxReconnectAttempts - a) with
    | zero => simp
    | succ m =>
      rw [List.chain'_range_succ]
      intro i _
      apply mul_le_mul_of_nonneg_left _ hbase
      exact pow_le_pow_right₀ hone (by omega)
  · intro q hq
    rw [reconnectRun_eq] at hq
    rcases List.mem_map.mp hq with ⟨i, hi, hqi⟩
    rw [List.mem_range] at hi
    refine ⟨a + i, ?_, hqi.symm⟩
    omega
  · intro q hq
    rw [reconnectRun_eq] at hq
    rcases List.mem_map.mp hq with ⟨i, hi, hqi⟩
    rw [List.mem_range] at hi
    rw [← hqi]
    apply mul_le_mul_of_nonneg_left _ hbase
    exact pow_le_pow_right₀ hone (by omega)
  · intro hn
    rcases n with _ | m
    · omega
    · rw [show connectOpen a = 0 from rfl, reconnectRun_eq]
      have hmin : min (m + 1) (maxReconnectAttempts - 0) = (min m 9) + 1 := by
        simp only [maxReconnectAttempts]
        omega
      rw [hmin, List.range_succ_eq_map]
      simp

/-- **C5** (witness): after a successful connect, the very next failure is
scheduled at exactly the base delay. -/
theorem reconnect_backoff_policy_witness :
    (reconnectRun (connectOpen 7) 3).head? = some reconnectDelayBase :=
  (reconnect_backoff_policy 7 3).2.2.2 (by norm_num)

/-- **C3**.  Over any process lifetime — any sequence of `handleTick`
invocations, re-delivered ticks included, under any notification-sink
behaviour — each alert key is attempted at most once (so at most one
outbound notification per `(ruleId, timestamp)` pair), every attempted key
is in the dedup record, the dedup record only ever grows, and the send
outcomes (failures included) influence neither the dedup record nor which
notifications are attempted: a failed send is not retried and its dedup
entry stays. -/
theorem alert_dedup_at_most_once (f : String → Bool)
    (batches : List (List (String × ℤ))) :
    ((runTicks f batches).attempts.map Prod.fst).Nodup ∧
    (∀ (r : String) (t : ℤ),
      ((runTicks f batches).attempts.filter
        (fun a => a.1 = alertKey r t)).length ≤ 1) ∧
    (∀ a ∈ (runTicks f batches).attempts,
      a.1 ∈ (runTicks f batches).sentAlerts) ∧
    (∀ n, (runTicks f (batches.take n)).sentAlerts ⊆
      (runTicks f batches).sentAlerts) ∧
    (∀ g, AlertAgree (runTicks g batches) (runTicks f batches)) := by
  have hinv0 : AlertInv ⟨[], []⟩ := ⟨List.nodup_nil, by simp⟩
  have hinv := foldl_handleTick_inv f batches ⟨[], []⟩ hinv0
  refine ⟨hinv.1.1, ?_, hinv.1.2, ?_, ?_⟩
  · intro r t
    exact nodup_map_filter_len Prod.fst _ hinv.1.1 (alertKey r t)
  · intro n
    have hsplit : batches = batches.take n ++ batches.drop n :=
      (List.take_append_drop n batches).symm
    have hrw : runTicks f batches
        = (batches.drop n).foldl (handleTick f) (runTicks f (batches.take n)) := by
      conv_lhs => rw [runTicks, hsplit]
      rw [List.foldl_append]
      rfl
    rw [hrw]
    have hpre := foldl_handleTick_inv f (batches.take n) ⟨[], []⟩ hinv0
    exact (foldl_handleTick_inv f (batches.drop n) _ hpre.1).2
  · intro g
    exact foldl_handleTick_agree g f batches ⟨[], []⟩ ⟨[], []⟩ ⟨rfl, rfl⟩

/-- **C3** (witness): on a concrete run where the same `(ruleId, timestamp)`
signal is delivered twice (a re-delivered tick), the key of the one recorded
attempt is in the dedup record. -/
theorem alert_dedup_at_most_once_witness :
    alertKey "r1" 5 ∈
      (runTicks (fun _ => false) [[("r1", 5)], [("r1", 5)]]).sentAlerts :=
  (alert_dedup_at_most_once (fun _ => false) [[("r1", 5)], [("r1", 5)]]).2.2.1
    (alertKey "r1" 5, false)
    (by simp [runTicks, handleTick, processSignal])

/-- **C10**.  Starting from the constructor state, after any sequence of
`addIndicatorValue` calls every per-parameter buffer holds at most
`maxHistoryPoints` (2000) entries, and it is exactly the suffix of most
recent values pushed for that key — the oldest entries having been evicted
first. -/
theorem indicator_buffers_bounded_fifo {α : Type} (ops : List (String × α))
    (key : String) :
    (getIndicatorHistory (runIndicatorAdds ops) key).length ≤ maxHistoryPoints ∧
    getIndicatorHistory (runIndicatorAdds ops) key =
      ((ops.filter (fun op => op.1 = key)).map Prod.snd).drop
        (((ops.filter (fun op => op.1 = key)).map Prod.snd).length
          - maxHistoryPoints) := by
  have h2 := foldl_pushCapped_eq maxHistoryPoints
    ((ops.filter (fun op => op.1 = key)).map Prod.snd) []
    (by simp)
  simp only [List.nil_append] at h2
  unfold getIndicatorHistory runIndicatorAdds
  rw [runAdds_apply ops key (emptyBuffers α)]
  have hemp : (emptyBuffers α) key = [] := rfl
  rw [hemp, h2]
  constructor
  · rw [List.length_drop]
    omega
  · rfl

/-! ### Rule engine: helper lemmas -/

theorem jsCmp_undef_left (f : ℚ → ℚ → Bool) (b : JsVal) :
    jsCmp f .undefined b = false := by
  cases b <;> rfl

theorem jsCmp_undef_right (f : ℚ → ℚ → Bool) (a : JsVal) :
    jsCmp f a .undefined = false := by
  cases a <;> rfl

theorem jsSub_undef_right (a : JsVal) : jsSub a .undefined = none := by
  cases a <;> rfl

theorem andEvery_snd_iff (data : List UPoint) (i : ℤ) (l : List Condition) :
    (andEvery data i l).2 = true ↔
      ∀ c ∈ l, evaluateCondition c data i = true := by
  induction l with
  | nil => simp [andEvery]
  | cons c rest ih =>
    by_cases hc : evaluateCondition c data i = true
    · simp only [andEvery, if_pos hc]
      constructor
      · intro h x hx
        rcases List.mem_cons.mp hx with rfl | hx'
        · exact hc
        · exact (ih.mp h) x hx'
      · intro h
        exact ih.mpr (fun x hx => h x (List.mem_cons_of_mem c hx))
    · simp only [andEvery, if_neg hc]
      constructor
      · intro h
        exact absurd h (by simp)
      · intro h
        exact absurd (h c (List.mem_cons_self c rest)) hc

theorem andEvery_fst_of_true (data : List UPoint) (i : ℤ) (l : List Condition)
    (h : (andEvery data i l).2 = true) : (andEvery data i l).1 = l := by
  induction l with
  | nil => rfl
  | cons c rest ih =>
    by_cases hc : evaluateCondition c data i = true
    · simp only [andEvery, if_pos hc] at h ⊢
      rw [ih h]
    · simp only [andEvery, if_neg hc] at h
      exact absurd h (by simp)

/-- **C8**.  For an enabled rule with a non-empty condition list: with AND
logic, `triggered` is true iff every condition holds at the index, the
matched list is empty whenever some condition fails, and on full success it
is the full condition list; with OR logic, `triggered` is true iff at least
one condition holds and the matched list is exactly the subset of
conditions that evaluated true (in order). -/
theorem evaluateRule_and_or_semantics (rule : Rule) (data : List UPoint)
    (i : ℤ) (hen : rule.enabled = true) (hne : rule.conditions ≠ []) :
    (rule.logic = "AND" →
      ((evaluateRule rule data i).1 = true ↔
        ∀ c ∈ rule.conditions, evaluateCondition c data i = true) ∧
      ((∃ c ∈ rule.conditions, evaluateCondition c data i = false) →
        (evaluateRule rule data i).2 = []) ∧
      ((evaluateRule rule data i).1 = true →
        (evaluateRule rule data i).2 = rule.conditions)) ∧
    (rule.logic = "OR" →
      ((evaluateRule rule data i).1 = true ↔
        ∃ c ∈ rule.conditions, evaluateCondition c data i = true) ∧
      (evaluateRule rule data i).2
        = rule.conditions.filter (fun c => evaluateCondition c data i)) := by
  have hguard : ¬(rule.enabled = false ∨ rule.conditions = []) := by
    simp [hen, hne]
  constructor
  · intro hlogic
    have heval : evaluateRule rule data i =
        ((andEvery data i rule.conditions).2,
          if (andEvery data i rule.conditions).2 then
            (andEvery data i rule.conditions).1 else []) := by
      simp [evaluateRule, hguard, hlogic]
    rw [heval]
    refine ⟨andEvery_snd_iff data i rule.conditions, ?_, ?_⟩
    · rintro ⟨c, hc, hcf⟩
      have hand : (andEvery data i rule.conditions).2 = false := by
        rcases Bool.eq_false_or_eq_true (andEvery data i rule.conditions).2
          with hb | hb
        · have := (andEvery_snd_iff data i rule.conditions).mp hb c hc
          rw [this] at hcf
          exact absurd hcf (by simp)
        · exact hb
      simp [hand]
    · intro htr
      simp only at htr
      simp [htr, andEvery_fst_of_true data i rule.conditions htr]
  · intro hlogic
    have hor : ¬((if rule.logic = "" then "AND" else rule.logic) = "AND") := by
      simp [hlogic]
    have heval : evaluateRule rule data i =
        (!(rule.conditions.filter (fun c => evaluateCondition c data i)).isEmpty,
          rule.conditions.filter (fun c => evaluateCondition c data i)) := by
      simp [evaluateRule, hguard, hlogic]
    rw [heval]
    refine ⟨?_, rfl⟩
    constructor
    · intro h
      rw [Bool.not_eq_true'] at h
      have hne' : rule.conditions.filter (fun c => evaluateCondition c data i)
          ≠ [] := by
        intro hnil
        rw [hnil] at h
        simp at h
      rcases List.exists_mem_of_ne_nil _ hne' with ⟨c, hc⟩
      have hmf := List.mem_filter.mp hc
      exact ⟨c, hmf.1, by simpa using hmf.2⟩
    · rintro ⟨c, hc, hct⟩
      rw [Bool.not_eq_true']
      have hmem : c ∈ rule.conditions.filter (fun c => evaluateCondition c data i) :=
        List.mem_filter.mpr ⟨hc, by simpa using hct⟩
      cases hfe : (rule.conditions.filter (fun c => evaluateCondition c data i)).isEmpty
      · rfl
      · rw [List.isEmpty_iff] at hfe
        rw [hfe] at hmem
        exact absurd hmem (List.not_mem_nil c)

/-- **C7**.  `evaluateCondition` is total (it is a Lean function faithful to
the JavaScript, which never throws on these inputs) and returns `false`
whenever a required value is missing: the index is out of range, the
condition's indicator value at the current point or at the looked-back
point is null/undefined, or the operator is unknown. -/
theorem evaluateCondition_missing_means_false (c : Condition)
    (data : List UPoint) (i : ℤ) :
    ((i < 0 ∨ (data.length : ℤ) ≤ i) → evaluateCondition c data i = false) ∧
    ((getIndicatorValue (jsIndex data i) c.indicatorKey).isMissing = true →
      evaluateCondition c data i = false) ∧
    (knownOperator c.operator = false → evaluateCondition c data i = false) ∧
    (∀ j, lookbackIndex c i = some j →
      (getIndicatorValue (jsIndex data j) c.indicatorKey).isMissing = true →
      evaluateCondition c data i = false) := by
  refine ⟨?_, ?_, ?_, ?_⟩
  · intro h
    simp [evaluateCondition, h]
  · intro h
    by_cases hr : i < 0 ∨ (data.length : ℤ) ≤ i
    · simp [evaluateCondition, hr]
    · simp [evaluateCondition, hr, h]
  · intro h
    by_cases hr : i < 0 ∨ (data.length : ℤ) ≤ i
    · simp [evaluateCondition, hr]
    · by_cases hm : (getIndicatorValue (jsIndex data i) c.indicatorKey).isMissing = true
      · simp [evaluateCondition, hr, hm]
      · simp only [Bool.not_eq_true] at hm
        simp only [knownOperator, Bool.or_eq_false_iff, beq_eq_false_iff_ne,
          ne_eq] at h
        simp only [evaluateCondition, if_neg hr, hm, Bool.false_eq_true,
          if_false]
        split <;> simp_all
  · intro j hj hmiss
    by_cases hr : i < 0 ∨ (data.length : ℤ) ≤ i
    · simp [evaluateCondition, hr]
    · by_cases hm : (getIndicatorValue (jsIndex data i) c.indicatorKey).isMissing = true
      · simp [evaluateCondition, hr, hm]
      · simp only [Bool.not_eq_true] at hm
        unfold lookbackIndex at hj
        by_cases hP1 : c.operator = "CROSSES_ABOVE" ∨ c.operator = "CROSSES_BELOW" ∨
            c.operator = "CROSSES_ABOVE_IND" ∨ c.operator = "CROSSES_BELOW_IND"
        · rw [if_pos hP1] at hj
          have hj' : j = i - 1 := (Option.some_inj.mp hj).symm
          subst hj'
          rcases hP1 with hop | hop | hop | hop
          · simp only [evaluateCondition, if_neg hr, hm, Bool.false_eq_true,
              if_false, hop]
            by_cases hlt : i < 1
            · simp [hlt]
            · cases hv : getIndicatorValue (jsIndex data (i - 1)) c.indicatorKey with
              | null => simp [hlt, hv]
              | undefined => simp [hlt, hv, jsLe, jsCmp_undef_left]
              | num q =>
                rw [hv] at hmiss
                simp [JsVal.isMissing] at hmiss
          · simp only [evaluateCondition, if_neg hr, hm, Bool.false_eq_true,
              if_false, hop]
            by_cases hlt : i < 1
            · simp [hlt]
            · cases hv : getIndicatorValue (jsIndex data (i - 1)) c.indicatorKey with
              | null => simp [hlt, hv]
              | undefined => simp [hlt, hv, jsGe, jsCmp_undef_left]
              | num q =>
                rw [hv] at hmiss
                simp [JsVal.isMissing] at hmiss
          · simp only [evaluateCondition, if_neg hr, hm, Bool.false_eq_true,
              if_false, hop]
            by_cases hguard : i < 1 ∨ c.compareToIndicator = ""
            · simp [hguard]
            · cases hv : getIndicatorValue (jsIndex data (i - 1)) c.indicatorKey with
              | null => simp [hguard, hv]
              | undefined =>
                by_cases hnull : getIndicatorValue (jsIndex data (i - 1))
                      c.compareToIndicator = JsVal.null ∨
                    getIndicatorValue (jsIndex data i) c.compareToIndicator
                      = JsVal.null
                · simp only [hguard, if_false]
                  rcases hnull with hn | hn <;> simp [hguard, hv, hn]
                · push_neg at hnull
                  simp [hguard, hv, hnull.1, hnull.2, jsLe, jsCmp_undef_left]
              | num q =>
                rw [hv] at hmiss
                simp [JsVal.isMissing] at hmiss
          · simp only [evaluateCondition, if_neg hr, hm, Bool.false_eq_true,
              if_false, hop]
            by_cases hguard : i < 1 ∨ c.compareToIndicator = ""
            · simp [hguard]
            · cases hv : getIndicatorValue (jsIndex data (i - 1)) c.indicatorKey with
              | null => simp [hguard, hv]
              | undefined =>
                by_cases hnull : getIndicatorValue (jsIndex data (i - 1))
                      c.compareToIndicator = JsVal.null ∨
                    getIndicatorValue (jsIndex data i) c.compareToIndicator
                      = JsVal.null
                · simp only [hguard, if_false]
                  rcases hnull with hn | hn <;> simp [hguard, hv, hn]
                · push_neg at hnull
                  simp [hguard, hv, hnull.1, hnull.2, jsGe, jsCmp_undef_left]
              | num q =>
                rw [hv] at hmiss
                simp [JsVal.isMissing] at hmiss
        · rw [if_neg hP1] at hj
          by_cases hP2 : c.operator = "INCREASING" ∨ c.operator = "DECREASING" ∨
              c.operator = "FLAT"
          · rw [if_pos hP2] at hj
            have hj' : j = i - lookbackOf c := (Option.some_inj.mp hj).symm
            subst hj'
            rcases hP2 with hop | hop | hop
            · simp only [evaluateCondition, if_neg hr, hm, Bool.false_eq_true,
                if_false, hop]
              by_cases hlt : i < lookbackOf c
              · simp [hlt]
              · cases hv : getIndicatorValue (jsIndex data (i - lookbackOf c))
                    c.indicatorKey with
                | null => simp [hlt, hv]
                | undefined => simp [hlt, hv, jsGt, jsCmp_undef_right]
                | num q =>
                  rw [hv] at hmiss
                  simp [JsVal.isMissing] at hmiss
            · simp only [evaluateCondition, if_neg hr, hm, Bool.false_eq_true,
                if_false, hop]
              by_cases hlt : i < lookbackOf c
              · simp [hlt]
              · cases hv : getIndicatorValue (jsIndex data (i - lookbackOf c))
                    c.indicatorKey with
                | null => simp [hlt, hv]
                | undefined => simp [hlt, hv, jsLt, jsCmp_undef_right]
                | num q =>
                  rw [hv] at hmiss
                  simp [JsVal.isMissing] at hmiss
            · simp only [evaluateCondition, if_neg hr, hm, Bool.false_eq_true,
                if_false, hop]
              by_cases hlt : i < lookbackOf c
              · simp [hlt]
              · cases hv : getIndicatorValue (jsIndex data (i - lookbackOf c))
                    c.indicatorKey with
                | null => simp [hlt, hv]
                | undefined =>
                  cases htc : toNumber (getIndicatorValue (jsIndex data i)
                      c.indicatorKey) <;>
                    simp [hlt, hv, htc, jsSub_undef_right]
                | num q =>
                  rw [hv] at hmiss
                  simp [JsVal.isMissing] at hmiss
          · rw [if_neg hP2] at hj
            exact absurd hj (by simp)

/-- **C7** (witness): an out-of-range index on an empty data array makes a
GT condition evaluate to false. -/
theorem evaluateCondition_missing_means_false_witness :
    evaluateCondition ⟨"RSI", "GT", 30, 0, 0, "", 1⟩ [] 0 = false :=
  (evaluateCondition_missing_means_false ⟨"RSI", "GT", 30, 0, 0, "", 1⟩ [] 0).1
    (Or.inr (by norm_num))

/-- **C8** (witness): an enabled one-condition AND rule whose condition
fails returns an empty matched-conditions list. -/
theorem evaluateRule_and_or_semantics_witness :
    (evaluateRule ⟨true, "AND", [⟨"RSI", "GT", 30, 0, 0, "", 1⟩]⟩ [] 0).2 = [] :=
  ((evaluateRule_and_or_semantics
      ⟨true, "AND", [⟨"RSI", "GT", 30, 0, 0, "", 1⟩]⟩ [] 0 rfl
      (by simp)).1 rfl).2.1
    ⟨⟨"RSI", "GT", 30, 0, 0, "", 1⟩, by simp, by simp [evaluateCondition]⟩

/-! ### Unified data builder: helper lemmas -/

theorem mapGet_mapSet_self (m : UMap) (t : ℤ) (v : UPoint) :
    mapGet (mapSet m t v) t = (mapGet m t).map (fun _ => v) := by
  induction m with
  | nil => rfl
  | cons e rest ih =>
    by_cases he : e.1 = t
    · have h1 : ((if e.1 = t then (t, v) else e) : ℤ × UPoint) = (t, v) := if_pos he
      rw [mapSet, List.map_cons, h1]
      rw [mapGet, List.find?_cons_of_pos _ (by simp),
        mapGet, List.find?_cons_of_pos _ (by simpa using he)]
      rfl
    · have h1 : ((if e.1 = t then (t, v) else e) : ℤ × UPoint) = e := if_neg he
      rw [mapSet, List.map_cons, h1]
      rw [mapGet, List.find?_cons_of_neg _ (by simpa using he),
        mapGet, List.find?_cons_of_neg _ (by simpa using he)]
      exact ih

theorem mapGet_mapSet_ne (m : UMap) (t t' : ℤ) (v : UPoint) (h : t' ≠ t) :
    mapGet (mapSet m t v) t' = mapGet m t' := by
  induction m with
  | nil => rfl
  | cons e rest ih =>
    by_cases he : e.1 = t
    · have h1 : ((if e.1 = t then (t, v) else e) : ℤ × UPoint) = (t, v) := if_pos he
      have h2 : ¬(((t, v) : ℤ × UPoint).1 = t') := fun hh => h (hh.symm)
      have h3 : ¬(e.1 = t') := by
        rw [he]
        exact fun hh => h hh.symm
      rw [mapSet, List.map_cons, h1]
      rw [mapGet, List.find?_cons_of_neg _ (by simpa using h2),
        mapGet, List.find?_cons_of_neg _ (by simpa using h3)]
      exact ih
    · have h1 : ((if e.1 = t then (t, v) else e) : ℤ × UPoint) = e := if_neg he
      rw [mapSet, List.map_cons, h1]
      by_cases he' : e.1 = t'
      · rw [mapGet, List.find?_cons_of_pos _ (by simpa using he'),
          mapGet, List.find?_cons_of_pos _ (by simpa using he')]
      · rw [mapGet, List.find?_cons_of_neg _ (by simpa using he'),
          mapGet, List.find?_cons_of_neg _ (by simpa using he')]
        exact ih

theorem mapGet_append_single_self (m : UMap) (t : ℤ) (v : UPoint)
    (h : mapGet m t = none) : mapGet (m ++ [(t, v)]) t = some v := by
  induction m with
  | nil =>
    rw [List.nil_append, mapGet, List.find?_cons_of_pos _ (by simp)]
    rfl
  | cons e rest ih =>
    by_cases he : e.1 = t
    · rw [mapGet, List.find?_cons_of_pos _ (by simpa using he)] at h
      exact absurd h (by simp)
    · rw [mapGet, List.find?_cons_of_neg _ (by simpa using he)] at h
      rw [List.cons_append, mapGet, List.find?_cons_of_neg _ (by simpa using he)]
      exact ih h

theorem mapGet_append_single_ne (m : UMap) (t t' : ℤ) (v : UPoint)
    (h : t' ≠ t) : mapGet (m ++ [(t, v)]) t' = mapGet m t' := by
  induction m with
  | nil =>
    rw [List.nil_append, mapGet,
      List.find?_cons_of_neg _ (by simpa using fun hh => h hh.symm)]
    rfl
  | cons e rest ih =>
    by_cases he : e.1 = t'
    · rw [List.cons_append, mapGet, List.find?_cons_of_pos _ (by simpa using he),
        mapGet, List.find?_cons_of_pos _ (by simpa using he)]
    · rw [List.cons_append, mapGet, List.find?_cons_of_neg _ (by simpa using he),
        mapGet, List.find?_cons_of_neg _ (by simpa using he)]
      exact ih

theorem mapGet_addValue_self (m : UMap) (t : ℤ) (f : UPoint → UPoint) :
    mapGet (addValue m (some t) f) t =
      some (f ((mapGet m t).getD (emptyU t))) := by
  cases hg : mapGet m t with
  | some p =>
    have ha : addValue m (some t) f = mapSet m t (f p) := by
      simp only [addValue, hg]
    rw [ha, mapGet_mapSet_self, hg]
    rfl
  | none =>
    have ha : addValue m (some t) f = m ++ [(t, f (emptyU t))] := by
      simp only [addValue, hg]
    rw [ha, mapGet_append_single_self m t _ hg]
    rfl

theorem mapGet_addValue_ne (m : UMap) (ots : Option ℤ) (t' : ℤ)
    (f : UPoint → UPoint) (h : ots ≠ some t') :
    mapGet (addValue m ots f) t' = mapGet m t' := by
  cases ots with
  | none => rfl
  | some t =>
    have ht : t' ≠ t := by
      intro hh
      exact h (by rw [hh])
    cases hg : mapGet m t with
    | some p =>
      have ha : addValue m (some t) f = mapSet m t (f p) := by
        simp only [addValue, hg]
      rw [ha]
      exact mapGet_mapSet_ne m t t' _ ht
    | none =>
      have ha : addValue m (some t) f = m ++ [(t, f (emptyU t))] := by
        simp only [addValue, hg]
      rw [ha]
      exact mapGet_append_single_ne m t t' _ ht

theorem mapGet_applyWrites_some (ws : List UWrite) :
    ∀ (m : UMap) (t : ℤ) (p : UPoint), mapGet m t = some p →
      mapGet (applyWrites m ws) t = some (applyAll (updatersAt ws t) p) := by
  induction ws with
  | nil =>
    intro m t p h
    simpa [applyWrites, updatersAt, applyAll] using h
  | cons w rest ih =>
    intro m t p h
    rw [applyWrites, List.foldl_cons]
    by_cases hw : w.1 = some t
    · have hset : mapGet (addValue m w.1 w.2) t = some (w.2 p) := by
        rw [hw, mapGet_addValue_self, h]
        rfl
      have hrec := ih (addValue m w.1 w.2) t (w.2 p) hset
      rw [applyWrites] at hrec
      rw [hrec]
      simp [updatersAt, hw, applyAll]
    · have hset : mapGet (addValue m w.1 w.2) t = some p := by
        rw [mapGet_addValue_ne m w.1 t w.2 hw, h]
      have hrec := ih (addValue m w.1 w.2) t p hset
      rw [applyWrites] at hrec
      rw [hrec]
      simp [updatersAt, hw]

theorem mapGet_applyWrites_none (ws : List UWrite) :
    ∀ (m : UMap) (t : ℤ), mapGet m t = none →
      mapGet (applyWrites m ws) t =
        match updatersAt ws t with
        | [] => none
        | f :: fs => some (applyAll (f :: fs) (emptyU t)) := by
  induction ws with
  | nil =>
    intro m t h
    simpa [applyWrites, updatersAt] using h
  | cons w rest ih =>
    intro m t h
    rw [applyWrites, List.foldl_cons]
    by_cases hw : w.1 = some t
    · have hset : mapGet (addValue m w.1 w.2) t = some (w.2 (emptyU t)) := by
        rw [hw, mapGet_addValue_self, h]
        rfl
      have hrec := mapGet_applyWrites_some rest (addValue m w.1 w.2) t _ hset
      rw [applyWrites] at hrec
      rw [hrec]
      simp [updatersAt, hw, applyAll]
    · have hset : mapGet (addValue m w.1 w.2) t = none := by
        rw [mapGet_addValue_ne m w.1 t w.2 hw, h]
      have hrec := ih (addValue m w.1 w.2) t hset
      rw [applyWrites] at hrec
      rw [hrec]
      have hupd : updatersAt (w :: rest) t = updatersAt rest t := by
        simp [updatersAt, hw]
      rw [hupd]

theorem mapGet_none_of_not_mem_keys (m : UMap) (t : ℤ)
    (h : t ∉ m.map Prod.fst) : mapGet m t = none := by
  unfold mapGet
  rw [List.find?_eq_none.mpr]
  · rfl
  · intro e he
    simp only [decide_eq_true_eq]
    intro het
    exact h (het ▸ List.mem_map_of_mem Prod.fst he)

theorem not_mem_keys_of_mapGet_none (m : UMap) (t : ℤ)
    (h : mapGet m t = none) : t ∉ m.map Prod.fst := by
  intro hmem
  rcases List.mem_map.mp hmem with ⟨e, he, het⟩
  unfold mapGet at h
  rcases Option.map_eq_none'.mp h with hf
  have := List.find?_eq_none.mp hf e he
  simp only [decide_eq_true_eq] at this
  exact this het

theorem keys_mapSet (m : UMap) (t : ℤ) (v : UPoint) :
    (mapSet m t v).map Prod.fst = m.map Prod.fst := by
  unfold mapSet
  rw [List.map_map]
  apply List.map_congr_left
  intro e _
  by_cases he : e.1 = t
  · simp [he]
  · simp [he]

theorem nodup_keys_addValue (m : UMap) (ots : Option ℤ) (f : UPoint → UPoint)
    (h : (m.map Prod.fst).Nodup) :
    ((addValue m ots f).map Prod.fst).Nodup := by
  cases ots with
  | none => exact h
  | some t =>
    cases hg : mapGet m t with
    | some p =>
      have ha : addValue m (some t) f = mapSet m t (f p) := by
        simp only [addValue, hg]
      rw [ha, keys_mapSet]
      exact h
    | none =>
      have ha : addValue m (some t) f = m ++ [(t, f (emptyU t))] := by
        simp only [addValue, hg]
      rw [ha, List.map_append]
      rw [List.nodup_append]
      refine ⟨h, List.nodup_singleton _, ?_⟩
      intro x hx hx'
      simp only [List.map_cons, List.map_nil, List.mem_singleton] at hx'
      rw [hx'] at hx
      exact not_mem_keys_of_mapGet_none m t hg hx

theorem nodup_keys_applyWrites (ws : List UWrite) :
    ∀ m : UMap, (m.map Prod.fst).Nodup →
      ((applyWrites m ws).map Prod.fst).Nodup := by
  induction ws with
  | nil => intro m h; exact h
  | cons w rest ih =>
    intro m h
    rw [applyWrites, List.foldl_cons]
    exact ih _ (nodup_keys_addValue m w.1 w.2 h)

theorem entries_ts_addValue (m : UMap) (ots : Option ℤ) (f : UPoint → UPoint)
    (hf : ∀ o, (f o).ts = o.ts) (h : ∀ e ∈ m, (e.2 : UPoint).ts = e.1) :
    ∀ e ∈ addValue m ots f, (e.2 : UPoint).ts = e.1 := by
  cases ots with
  | none => exact h
  | some t =>
    cases hg : mapGet m t with
    | some p =>
      have hfound := List.find?_some (Option.map_eq_some'.mp hg).choose_spec.1
      have hmem := List.mem_of_find?_eq_some
        (Option.map_eq_some'.mp hg).choose_spec.1
      have hpts : p.ts = t := by
        have he2 := (Option.map_eq_some'.mp hg).choose_spec.2
        have h1 := h _ hmem
        rw [he2] at h1
        rw [h1]
        simpa using hfound
      have ha : addValue m (some t) f = mapSet m t (f p) := by
        simp only [addValue, hg]
      rw [ha]
      intro e he
      unfold mapSet at he
      rcases List.mem_map.mp he with ⟨e', he', hee⟩
      by_cases h1 : e'.1 = t
      · rw [if_pos h1] at hee
        rw [← hee]
        simp [hf, hpts]
      · rw [if_neg h1] at hee
        rw [← hee]
        exact h e' he'
    | none =>
      have ha : addValue m (some t) f = m ++ [(t, f (emptyU t))] := by
        simp only [addValue, hg]
      rw [ha]
      intro e he
      rcases List.mem_append.mp he with he' | he'
      · exact h e he'
      · simp only [List.mem_singleton] at he'
        subst he'
        simp [hf, emptyU]

theorem entries_ts_applyWrites (ws : List UWrite)
    (hws : ∀ w ∈ ws, ∀ o, ((w.2 : UPoint → UPoint) o).ts = o.ts) :
    ∀ m : UMap, (∀ e ∈ m, (e.2 : UPoint).ts = e.1) →
      ∀ e ∈ applyWrites m ws, (e.2 : UPoint).ts = e.1 := by
  induction ws with
  | nil => intro m h; exact h
  | cons w rest ih =>
    intro m h
    rw [applyWrites, List.foldl_cons]
    exact ih (fun w' hw' => hws w' (List.mem_cons_of_mem w hw'))
      _ (entries_ts_addValue m w.1 w.2 (hws w (List.mem_cons_self w rest)) h)

theorem mapGet_of_mem (m : UMap) (h : (m.map Prod.fst).Nodup) (t : ℤ)
    (p : UPoint) (hmem : (t, p) ∈ m) : mapGet m t = some p := by
  induction m with
  | nil => exact absurd hmem (List.not_mem_nil _)
  | cons e rest ih =>
    rw [List.map_cons, List.nodup_cons] at h
    rcases List.mem_cons.mp hmem with rfl | hmem'
    · rw [mapGet, List.find?_cons_of_pos _ (by simp)]
      rfl
    · have htr : t ∈ rest.map Prod.fst :=
        List.mem_map.mpr ⟨(t, p), hmem', rfl⟩
      have hne : ¬(e.1 = t) := fun hh => h.1 (hh ▸ htr)
      rw [mapGet, List.find?_cons_of_neg _ (by simpa using hne)]
      exact ih h.2 hmem'

theorem applyAll_append (l1 l2 : List (UPoint → UPoint)) (o : UPoint) :
    applyAll (l1 ++ l2) o = applyAll l2 (applyAll l1 o) := by
  unfold applyAll
  rw [List.foldl_append]

theorem applyAll_preserve (g : UPoint → Option ℚ)
    (fs : List (UPoint → UPoint)) (h : ∀ f ∈ fs, ∀ o, g (f o) = g o) :
    ∀ o : UPoint, g (applyAll fs o) = g o := by
  induction fs with
  | nil => intro o; rfl
  | cons f rest ih =>
    intro o
    unfold applyAll
    rw [List.foldl_cons]
    have := ih (fun f' hf' => h f' (List.mem_cons_of_mem f hf')) (f o)
    unfold applyAll at this
    rw [this]
    exact h f (List.mem_cons_self f rest) o

theorem applyAll_setter {β : Type} (g : UPoint → Option ℚ)
    (mk : β → UPoint → UPoint) (val : β → ℚ)
    (h : ∀ b o, g (mk b o) = some (val b)) :
    ∀ (vs : List β) (o : UPoint),
      g (applyAll (vs.map mk) o) = (vs.getLast?).elim (g o) (fun b => some (val b)) := by
  intro vs
  induction vs with
  | nil => intro o; rfl
  | cons b rest ih =>
    intro o
    rw [List.map_cons]
    unfold applyAll
    rw [List.foldl_cons]
    have := ih (mk b o)
    unfold applyAll at this
    rw [this]
    cases rest with
    | nil => simp [h]
    | cons r rs =>
      cases hgl : (r :: rs).getLast? with
      | none => simp at hgl
      | some x =>
        rw [List.getLast?_cons_cons, hgl]
        rfl

theorem filterMap_ite_eq_map_filter {β γ : Type} (p : β → Prop)
    [DecidablePred p] (f : β → γ) (l : List β) :
    l.filterMap (fun b => if p b then some (f b) else none)
      = (l.filter (fun b => p b)).map f := by
  induction l with
  | nil => rfl
  | cons b rest ih =>
    by_cases hb : p b
    · simp [List.filterMap_cons, List.filter_cons, hb, ih]
    · simp [List.filterMap_cons, List.filter_cons, hb, ih]

theorem option_elim_none_map {β : Type} (ob : Option β) (val : β → ℚ) :
    ob.elim (none : Option ℚ) (fun b => some (val b)) = ob.map val := by
  cases ob <;> rfl

theorem updatersAt_priceWrites (series : List PriceTick) (t : ℤ) :
    updatersAt (priceWrites series) t =
      (priceWritesAt series t).map
        (fun pt (o : UPoint) => { o with price := some pt.price }) := by
  unfold updatersAt priceWrites priceWritesAt
  rw [List.filterMap_map]
  exact filterMap_ite_eq_map_filter (fun pt : PriceTick => pt.ts = some t) _ series

theorem updatersAt_rsiWrites (hist : List RsiPoint) (t : ℤ) :
    updatersAt (rsiWrites hist) t =
      (rsiWritesAt hist t).map
        (fun pt (o : UPoint) => { o with rsi := some pt.rsi }) := by
  unfold updatersAt rsiWrites rsiWritesAt
  rw [List.filterMap_map]
  exact filterMap_ite_eq_map_filter (fun pt : RsiPoint => pt.ts = some t) _ hist

theorem updatersAt_macdWrites (hist : List MacdPoint) (t : ℤ) :
    updatersAt (macdWrites hist) t =
      (macdWritesAt hist t).map
        (fun pt (o : UPoint) =>
          { o with macd := some pt.macd, signal := some pt.signal,
                   histogram := some pt.histogram }) := by
  unfold updatersAt macdWrites macdWritesAt
  rw [List.filterMap_map]
  exact filterMap_ite_eq_map_filter (fun pt : MacdPoint => pt.ts = some t) _ hist

theorem updatersAt_stochWrites (hist : List StochPoint) (t : ℤ) :
    updatersAt (stochWrites hist) t =
      (stochWritesAt hist t).map
        (fun pt (o : UPoint) => { o with k := some pt.k, d := some pt.d }) := by
  unfold updatersAt stochWrites stochWritesAt
  rw [List.filterMap_map]
  exact filterMap_ite_eq_map_filter (fun pt : StochPoint => pt.ts = some t) _ hist

theorem updatersAt_bbWrites (hist : List BbPoint) (t : ℤ) :
    updatersAt (bbWrites hist) t =
      (bbWritesAt hist t).map
        (fun pt (o : UPoint) =>
          { o with upper := some pt.upper, middle := some pt.middle,
                   lower := some pt.lower }) := by
  unfold updatersAt bbWrites bbWritesAt
  rw [List.filterMap_map]
  exact filterMap_ite_eq_map_filter (fun pt : BbPoint => pt.ts = some t) _ hist

theorem updatersAt_append (ws1 ws2 : List UWrite) (t : ℤ) :
    updatersAt (ws1 ++ ws2) t = updatersAt ws1 t ++ updatersAt ws2 t := by
  unfold updatersAt
  rw [List.filterMap_append]

theorem buildUnifiedData_eq (series : List PriceTick) (rsiH : List RsiPoint)
    (macdH : List MacdPoint) (stochH : List StochPoint) (bbH : List BbPoint)
    (hne : series ≠ []) :
    buildUnifiedData series rsiH macdH stochH bbH =
      ((applyWrites [] (priceWrites series ++ (rsiWrites rsiH ++
          (macdWrites macdH ++ (stochWrites stochH ++
            bbWrites bbH))))).map Prod.snd).insertionSort
        (fun a b => a.ts ≤ b.ts) := by
  rw [buildUnifiedData, if_neg hne]
  unfold applyWrites priceWrites rsiWrites macdWrites stochWrites bbWrites
  simp only [List.foldl_append, List.foldl_map]

/-- **C9**.  For every state of the price series and the four indicator
history buffers, the unified series has strictly increasing timestamps (in
particular no duplicates), and each field of a point equals the last value
written for that field at that timestamp — later writes to the same bucket
overwrite earlier ones per field, fields of different series never clobber
each other. -/
theorem buildUnifiedData_sorted_lastWriteWins (series : List PriceTick)
    (rsiH : List RsiPoint) (macdH : List MacdPoint) (stochH : List StochPoint)
    (bbH : List BbPoint) :
    (buildUnifiedData series rsiH macdH stochH bbH).Pairwise
      (fun a b => a.ts < b.ts) ∧
    ∀ p ∈ buildUnifiedData series rsiH macdH stochH bbH,
      p.price = lastWrittenPrice series p.ts ∧
      p.rsi = lastWrittenRsi rsiH p.ts ∧
      p.macd = lastWrittenMacd macdH p.ts ∧
      p.signal = lastWrittenSignal macdH p.ts ∧
      p.histogram = lastWrittenHistogram macdH p.ts ∧
      p.k = lastWrittenK stochH p.ts ∧
      p.d = lastWrittenD stochH p.ts ∧
      p.upper = lastWrittenUpper bbH p.ts ∧
      p.middle = lastWrittenMiddle bbH p.ts ∧
      p.lower = lastWrittenLower bbH p.ts := by
  by_cases hse : series = []
  · constructor
    · rw [buildUnifiedData, if_pos hse]
      exact List.Pairwise.nil
    · intro p hp
      rw [buildUnifiedData, if_pos hse] at hp
      exact absurd hp (List.not_mem_nil p)
  · have hout := buildUnifiedData_eq series rsiH macdH stochH bbH hse
    have hkeys : (((applyWrites [] (priceWrites series ++ (rsiWrites rsiH ++
        (macdWrites macdH ++ (stochWrites stochH ++
          bbWrites bbH))))).map Prod.fst)).Nodup :=
      nodup_keys_applyWrites _ [] (by simp)
    have hwpres : ∀ w ∈ priceWrites series ++ (rsiWrites rsiH ++
        (macdWrites macdH ++ (stochWrites stochH ++ bbWrites bbH))),
        ∀ o : UPoint, ((w.2 : UPoint → UPoint) o).ts = o.ts := by
      intro w hw o
      rcases List.mem_append.mp hw with h1 | h1
      · rcases List.mem_map.mp h1 with ⟨pt, _, rfl⟩
        rfl
      · rcases List.mem_append.mp h1 with h2 | h2
        · rcases List.mem_map.mp h2 with ⟨pt, _, rfl⟩
          rfl
        · rcases List.mem_append.mp h2 with h3 | h3
          · rcases List.mem_map.mp h3 with ⟨pt, _, rfl⟩
            rfl
          · rcases List.mem_append.mp h3 with h4 | h4
            · rcases List.mem_map.mp h4 with ⟨pt, _, rfl⟩
              rfl
            · rcases List.mem_map.mp h4 with ⟨pt, _, rfl⟩
              rfl
    have hts : ∀ e ∈ applyWrites [] (priceWrites series ++ (rsiWrites rsiH ++
        (macdWrites macdH ++ (stochWrites stochH ++ bbWrites bbH)))),
        (e.2 : UPoint).ts = e.1 :=
      entries_ts_applyWrites _ hwpres [] (by simp)
    have hperm : (buildUnifiedData series rsiH macdH stochH bbH).Perm
        ((applyWrites [] (priceWrites series ++ (rsiWrites rsiH ++
          (macdWrites macdH ++ (stochWrites stochH ++
            bbWrites bbH))))).map Prod.snd) := by
      rw [hout]
      exact List.perm_insertionSort _ _
    constructor
    · have hsorted : (buildUnifiedData series rsiH macdH stochH bbH).Pairwise
          (fun a b => a.ts ≤ b.ts) := by
        rw [hout]
        exact List.sorted_insertionSort _ _
      have hmapts : ((applyWrites [] (priceWrites series ++ (rsiWrites rsiH ++
          (macdWrites macdH ++ (stochWrites stochH ++
            bbWrites bbH))))).map Prod.snd).map UPoint.ts
          = (applyWrites [] (priceWrites series ++ (rsiWrites rsiH ++
            (macdWrites macdH ++ (stochWrites stochH ++
              bbWrites bbH))))).map Prod.fst := by
        rw [List.map_map]
        exact List.map_congr_left (fun e he => hts e he)
      have htsnodup : ((buildUnifiedData series rsiH macdH stochH bbH).map
          UPoint.ts).Nodup := by
        have h2 := hperm.map UPoint.ts
        rw [hmapts] at h2
        exact h2.nodup_iff.mpr hkeys
      have hne' : (buildUnifiedData series rsiH macdH stochH bbH).Pairwise
          (fun a b => a.ts ≠ b.ts) := (List.pairwise_map).mp htsnodup
      exact (hsorted.and hne').imp (fun hab => lt_of_le_of_ne hab.1 hab.2)
    · intro p hp
      have hpm := hperm.mem_iff.mp hp
      rcases List.mem_map.mp hpm with ⟨e, hem, hep⟩
      obtain ⟨t0, q⟩ := e
      simp only at hep
      rw [hep] at hem
      have hpts : p.ts = t0 := hts (t0, p) hem
      have hget : mapGet (applyWrites [] (priceWrites series ++ (rsiWrites rsiH ++
          (macdWrites macdH ++ (stochWrites stochH ++ bbWrites bbH))))) t0
          = some p :=
        mapGet_of_mem _ hkeys t0 p hem
      have hchar := mapGet_applyWrites_none (priceWrites series ++ (rsiWrites rsiH ++
        (macdWrites macdH ++ (stochWrites stochH ++ bbWrites bbH)))) [] t0 rfl
      rw [hget] at hchar
      have hp_eq : p = applyAll (updatersAt (priceWrites series ++ (rsiWrites rsiH ++
          (macdWrites macdH ++ (stochWrites stochH ++ bbWrites bbH)))) t0)
          (emptyU t0) := by
        cases hupd : updatersAt (priceWrites series ++ (rsiWrites rsiH ++
            (macdWrites macdH ++ (stochWrites stochH ++ bbWrites bbH)))) t0 with
        | nil =>
          rw [hupd] at hchar
          exact absurd hchar (by simp)
        | cons f fs =>
          rw [hupd] at hchar
          simp only at hchar
          exact Option.some_inj.mp hchar
      rw [updatersAt_append, updatersAt_append, updatersAt_append,
        updatersAt_append, updatersAt_priceWrites, updatersAt_rsiWrites,
        updatersAt_macdWrites, updatersAt_stochWrites, updatersAt_bbWrites,
        applyAll_append, applyAll_append, applyAll_append, applyAll_append]
        at hp_eq
      rw [hpts, hp_eq]
      refine ⟨?_, ?_, ?_, ?_, ?_, ?_, ?_, ?_, ?_, ?_⟩
      · rw [applyAll_preserve UPoint.price _
            (by intro f hf o; rcases List.mem_map.mp hf with ⟨pt, _, rfl⟩; rfl),
          applyAll_preserve UPoint.price _
            (by intro f hf o; rcases List.mem_map.mp hf with ⟨pt, _, rfl⟩; rfl),
          applyAll_preserve UPoint.price _
            (by intro f hf o; rcases List.mem_map.mp hf with ⟨pt, _, rfl⟩; rfl),
          applyAll_preserve UPoint.price _
            (by intro f hf o; rcases List.mem_map.mp hf with ⟨pt, _, rfl⟩; rfl),
          applyAll_setter UPoint.price _ (fun pt => pt.price) (fun b o => rfl)]
        rw [show (emptyU t0).price = none from rfl, lastWrittenPrice, option_elim_none_map]
      · rw [applyAll_preserve UPoint.rsi _
            (by intro f hf o; rcases List.mem_map.mp hf with ⟨pt, _, rfl⟩; rfl),
          applyAll_preserve UPoint.rsi _
            (by intro f hf o; rcases List.mem_map.mp hf with ⟨pt, _, rfl⟩; rfl),
          applyAll_preserve UPoint.rsi _
            (by intro f hf o; rcases List.mem_map.mp hf with ⟨pt, _, rfl⟩; rfl),
          applyAll_setter UPoint.rsi _ (fun pt => pt.rsi) (fun b o => rfl),
          applyAll_preserve UPoint.rsi _
            (by intro f hf o; rcases List.mem_map.mp hf with ⟨pt, _, rfl⟩; rfl)]
        rw [show (emptyU t0).rsi = none from rfl, lastWrittenRsi, option_elim_none_map]
      · rw [applyAll_preserve UPoint.macd _
            (by intro f hf o; rcases List.mem_map.mp hf with ⟨pt, _, rfl⟩; rfl),
          applyAll_preserve UPoint.macd _
            (by intro f hf o; rcases List.mem_map.mp hf with ⟨pt, _, rfl⟩; rfl),
          applyAll_setter UPoint.macd _ (fun pt => pt.macd) (fun b o => rfl),
          applyAll_preserve UPoint.macd _
            (by intro f hf o; rcases List.mem_map.mp hf with ⟨pt, _, rfl⟩; rfl),
          applyAll_preserve UPoint.macd _
            (by intro f hf o; rcases List.mem_map.mp hf with ⟨pt, _, rfl⟩; rfl)]
        rw [show (emptyU t0).macd = none from rfl, lastWrittenMacd, option_elim_none_map]
      · rw [applyAll_preserve UPoint.signal _
            (by intro f hf o; rcases List.mem_map.mp hf with ⟨pt, _, rfl⟩; rfl),
          applyAll_preserve UPoint.signal _
            (by intro f hf o; rcases List.mem_map.mp hf with ⟨pt, _, rfl⟩; rfl),
          applyAll_setter UPoint.signal _ (fun pt => pt.signal) (fun b o => rfl),
          applyAll_preserve UPoint.signal _
            (by intro f hf o; rcases List.mem_map.mp hf with ⟨pt, _, rfl⟩; rfl),
          applyAll_preserve UPoint.signal _
            (by intro f hf o; rcases List.mem_map.mp hf with ⟨pt, _, rfl⟩; rfl)]
        rw [show (emptyU t0).signal = none from rfl, lastWrittenSignal, option_elim_none_map]
      · rw [applyAll_preserve UPoint.histogram _
            (by intro f hf o; rcases List.mem_map.mp hf with ⟨pt, _, rfl⟩; rfl),
          applyAll_preserve UPoint.histogram _
            (by intro f hf o; rcases List.mem_map.mp hf with ⟨pt, _, rfl⟩; rfl),
          applyAll_setter UPoint.histogram _ (fun pt => pt.histogram)
            (fun b o => rfl),
          applyAll_preserve UPoint.histogram _
            (by intro f hf o; rcases List.mem_map.mp hf with ⟨pt, _, rfl⟩; rfl),
          applyAll_preserve UPoint.histogram _
            (by intro f hf o; rcases List.mem_map.mp hf with ⟨pt, _, rfl⟩; rfl)]
        rw [show (emptyU t0).histogram = none from rfl, lastWrittenHistogram, option_elim_none_map]
      · rw [applyAll_preserve UPoint.k _
            (by intro f hf o; rcases List.mem_map.mp hf with ⟨pt, _, rfl⟩; rfl),
          applyAll_setter UPoint.k _ (fun pt => pt.k) (fun b o => rfl),
          applyAll_preserve UPoint.k _
            (by intro f hf o; rcases List.mem_map.mp hf with ⟨pt, _, rfl⟩; rfl),
          applyAll_preserve UPoint.k _
            (by intro f hf o; rcases List.mem_map.mp hf with ⟨pt, _, rfl⟩; rfl),
          applyAll_preserve UPoint.k _
            (by intro f hf o; rcases List.mem_map.mp hf with ⟨pt, _, rfl⟩; rfl)]
        rw [show (emptyU t0).k = none from rfl, lastWrittenK, option_elim_none_map]
      · rw [applyAll_preserve UPoint.d _
            (by intro f hf o; rcases List.mem_map.mp hf with ⟨pt, _, rfl⟩; rfl),
          applyAll_setter UPoint.d _ (fun pt => pt.d) (fun b o => rfl),
          applyAll_preserve UPoint.d _
            (by intro f hf o; rcases List.mem_map.mp hf with ⟨pt, _, rfl⟩; rfl),
          applyAll_preserve UPoint.d _
            (by intro f hf o; rcases List.mem_map.mp hf with ⟨pt, _, rfl⟩; rfl),
          applyAll_preserve UPoint.d _
            (by intro f hf o; rcases List.mem_map.mp hf with ⟨pt, _, rfl⟩; rfl)]
        rw [show (emptyU t0).d = none from rfl, lastWrittenD, option_elim_none_map]
      · rw [applyAll_setter UPoint.upper _ (fun pt => pt.upper) (fun b o => rfl),
          applyAll_preserve UPoint.upper _
            (by intro f hf o; rcases List.mem_map.mp hf with ⟨pt, _, rfl⟩; rfl),
          applyAll_preserve UPoint.upper _
            (by intro f hf o; rcases List.mem_map.mp hf with ⟨pt, _, rfl⟩; rfl),
          applyAll_preserve UPoint.upper _
            (by intro f hf o; rcases List.mem_map.mp hf with ⟨pt, _, rfl⟩; rfl),
          applyAll_preserve UPoint.upper _
            (by intro f hf o; rcases List.mem_map.mp hf with ⟨pt, _, rfl⟩; rfl)]
        rw [show (emptyU t0).upper = none from rfl, lastWrittenUpper, option_elim_none_map]
      · rw [applyAll_setter UPoint.middle _ (fun pt => pt.middle) (fun b o => rfl),
          applyAll_preserve UPoint.middle _
            (by intro f hf o; rcases List.mem_map.mp hf with ⟨pt, _, rfl⟩; rfl),
          applyAll_preserve UPoint.middle _
            (by intro f hf o; rcases List.mem_map.mp hf with ⟨pt, _, rfl⟩; rfl),
          applyAll_preserve UPoint.middle _
            (by intro f hf o; rcases List.mem_map.mp hf with ⟨pt, _, rfl⟩; rfl),
          applyAll_preserve UPoint.middle _
            (by intro f hf o; rcases List.mem_map.mp hf with ⟨pt, _, rfl⟩; rfl)]
        rw [show (emptyU t0).middle = none from rfl, lastWrittenMiddle, option_elim_none_map]
      · rw [applyAll_setter UPoint.lower _ (fun pt => pt.lower) (fun b o => rfl),
          applyAll_preserve UPoint.lower _
            (by intro f hf o; rcases List.mem_map.mp hf with ⟨pt, _, rfl⟩; rfl),
          applyAll_preserve UPoint.lower _
            (by intro f hf o; rcases List.mem_map.mp hf with ⟨pt, _, rfl⟩; rfl),
          applyAll_preserve UPoint.lower _
            (by intro f hf o; rcases List.mem_map.mp hf with ⟨pt, _, rfl⟩; rfl),
          applyAll_preserve UPoint.lower _
            (by intro f hf o; rcases List.mem_map.mp hf with ⟨pt, _, rfl⟩; rfl)]
        rw [show (emptyU t0).lower = none from rfl, lastWrittenLower, option_elim_none_map]

/-- **C9** (witness): two price writes land in the same bucket (timestamp 1);
the unified point carries the later price, which is the last value written
for the price field at that timestamp. -/
theorem buildUnifiedData_sorted_lastWriteWins_witness :
    ({ ts := 1, price := some 7, rsi := some 30 } : UPoint).price
      = lastWrittenPrice [⟨some 1, 5⟩, ⟨some 1, 7⟩] 1 :=
  ((buildUnifiedData_sorted_lastWriteWins [⟨some 1, 5⟩, ⟨some 1, 7⟩]
      [⟨some 1, 30⟩] [] [] []).2
    { ts := 1, price := some 7, rsi := some 30 }
    (by
      have hcomp : buildUnifiedData [⟨some 1, 5⟩, ⟨some 1, 7⟩]
          [⟨some 1, 30⟩] [] [] []
          = [{ ts := 1, price := some 7, rsi := some 30 }] := by rfl
      rw [hcomp]
      exact List.mem_singleton.mpr rfl)).1

end Trading
